import Mathlib

/-!
Verification development for the catscan static-analysis engine.

Shallow embedding of the engine's core components, translated from the
Python sources:
  * `Catscan.Tc3` — builtin type tables and `common_arithmetic_type`
    (`catscan/utils/tc3.py`);
  * `Catscan.Lint` — rule dispatch gating and inline `noqa` suppression
    (`catscan/lint/base.py`, `catscan/lint/error.py`);
  * `Catscan.Ctx` — scope-context entry/exit and identifier resolution
    (`catscan/lint/context.py`);
  * `Catscan.Program` — per-routine control-flow graph construction and the
    forward/backward all-paths predicate queries
    (`src/catscan/utils/program.py`).

Python `set`/`dict` iteration is rendered deterministically (lists with
dedup-on-insert); every property proved below is insensitive to that order.
Machine strings are Lean `String`s, Python `None` is `Option.none`, raised
exceptions are `Except.error`.
-/

namespace Catscan

namespace Tc3

/-- `BUILTIN_BITSTRINGS` from `catscan/utils/tc3.py` (ordered by size). -/
def BUILTIN_BITSTRINGS : List String := ["BOOL", "BYTE", "WORD", "DWORD", "LWORD"]

/-- `BUILTIN_UNSIGNED_INTEGERS` from `catscan/utils/tc3.py`. -/
def BUILTIN_UNSIGNED_INTEGERS : List String := ["USINT", "UINT", "UDINT", "ULINT"]

/-- `BUILTIN_SIGNED_INTEGERS` from `catscan/utils/tc3.py`. -/
def BUILTIN_SIGNED_INTEGERS : List String := ["SINT", "INT", "DINT", "LINT"]

/-- `BUILTIN_FLOATING_POINT` from `catscan/utils/tc3.py`. -/
def BUILTIN_FLOATING_POINT : List String := ["REAL", "LREAL"]

/-- `BUILTIN_TIME_RELATED` from `catscan/utils/tc3.py`. -/
def BUILTIN_TIME_RELATED : List String :=
  ["TIME", "LTIME", "DATE", "LDATE", "TIME_OF_DAY", "TOD", "LTIME_OF_DAY", "LTOD",
   "DATE_AND_TIME", "DT", "LDATE_AND_TIME", "LDT"]

/-- `BUILTIN_ELEMENTARY_TYPES` from `catscan/utils/tc3.py`. -/
def BUILTIN_ELEMENTARY_TYPES : List String :=
  BUILTIN_BITSTRINGS ++ BUILTIN_UNSIGNED_INTEGERS ++ BUILTIN_SIGNED_INTEGERS ++
    BUILTIN_FLOATING_POINT ++ BUILTIN_TIME_RELATED

/-- `BUILTIN_TYPE_CONVERSIONS` from `catscan/utils/tc3.py`: the dict comprehension
`{f"{from_t}_TO_{to_t}": to_t ...} | {f"TO_{to_t}": to_t ...}` rendered as an
association list in the same insertion order. -/
def BUILTIN_TYPE_CONVERSIONS : List (String × String) :=
  (BUILTIN_ELEMENTARY_TYPES.flatMap (fun from_t =>
    (BUILTIN_ELEMENTARY_TYPES.filter (fun to_t => to_t ≠ from_t)).map
      (fun to_t => (from_t ++ "_TO_" ++ to_t, to_t)))) ++
  BUILTIN_ELEMENTARY_TYPES.map (fun to_t => ("TO_" ++ to_t, to_t))

/-- `BUILTIN_FUNCTIONS` from `catscan/utils/tc3.py`. -/
def BUILTIN_FUNCTIONS : List (String × String) :=
  [("LEN", "INT"), ("FIND", "INT"), ("TRUNC", "DINT"), ("TRUNC_INT", "INT"),
   ("SIZEOF", "USINT")]

/-- `streq` from `catscan/utils/tc3.py`: non-strict (case-insensitive) string
comparison, `str(s1).lower() == str(s2).lower()`, rendered as per-character
ASCII case folding (the identifiers and type names compared are ASCII). -/
def streq (s1 s2 : String) : Bool :=
  s1.data.map Char.toLower = s2.data.map Char.toLower

/-- The `dominant_types` list built inside `common_arithmetic_type`
(`catscan/utils/tc3.py` lines 98-103); note the bit-string family is absent. -/
def dominant_types : List (List String) :=
  [BUILTIN_TIME_RELATED, BUILTIN_FLOATING_POINT, BUILTIN_UNSIGNED_INTEGERS,
   BUILTIN_SIGNED_INTEGERS]

/-- The `for typset in dominant_types` loop of `common_arithmetic_type`
(`catscan/utils/tc3.py` lines 104-111).  `none` means the loop fell through
to the warning-and-best-guess return. -/
def dominanceLoop : List (List String) → String → String → Option String
  | [], _, _ => none
  | typset :: rest, typ1, typ2 =>
    if typ1 ∈ typset ∧ typ2 ∉ typset then some typ1
    else if typ2 ∈ typset ∧ typ1 ∉ typset then some typ2
    else if typ1 ∈ typset ∧ typ2 ∈ typset then
      -- higher index is larger type: typset[max(typset.index(typ1), typset.index(typ2))]
      some (typset.getD (max (typset.indexOf typ1) (typset.indexOf typ2)) "")
    else dominanceLoop rest typ1 typ2

/-- `common_arithmetic_type` from `catscan/utils/tc3.py` lines 86-115.
The fallthrough `return typ1 or typ2` returns `typ1` unless it is the empty
(falsy) string. -/
def common_arithmetic_type (typ1 typ2 : Option String) : Option String :=
  match typ1, typ2 with
  | none, t2 => t2
  | some t1, none => some t1
  | some t1, some t2 =>
    if t1 = t2 then some t1
    else
      match dominanceLoop dominant_types t1 t2 with
      | some r => some r
      | none => some (if t1 ≠ "" then t1 else t2)

end Tc3

namespace Lint

/-- `CheckLevel` from `catscan/settings.py`: `IntEnum` with
`ERROR = 0, WARNING = 1, INFO = 2, FINE = 3`. -/
inductive CheckLevel
  | ERROR
  | WARNING
  | INFO
  | FINE
deriving DecidableEq

/-- The `IntEnum` integer value of a `CheckLevel`, used for the `>` comparison
`check_level > _settings.level` in `LintCheck.__call__`. -/
def CheckLevel.toNat : CheckLevel → Nat
  | .ERROR => 0
  | .WARNING => 1
  | .INFO => 2
  | .FINE => 3

/-- `CheckSettings` from `catscan/settings.py` (defaults
`enabled = True`, `level = ERROR`). -/
structure CheckSettings where
  enabled : Bool
  level : CheckLevel
deriving DecidableEq

/-- The fields of `Settings` (`catscan/settings.py`) that rule dispatch
consults: the global minimum `level` (default `WARNING`) and the per-check
settings dict, rendered as an association list. -/
structure Settings where
  level : CheckLevel
  checks : List (String × CheckSettings)
  builtin_symbols : List (String × String)
deriving DecidableEq

/-- Python `dict.get(key)`: exact-key lookup in the association-list rendering
of a dict. -/
def dictGet (l : List (String × α)) (k : String) : Option α :=
  (l.find? (fun p => p.1 = k)).map (fun p => p.2)

/-- The observable part of an `Error` (`catscan/lint/error.py`) that dispatch
inspects: `err.loc.error_line()`, the rendered violating source line
(`none` when no context can be determined). -/
structure Finding where
  errorLine : Option String
deriving DecidableEq

/-- One `CODE` token of `CODE_PATT = [A-Z]{2,4}\d{3,4}` matched greedily at the
front of the character list; returns the remaining characters.  The regex
alternatives collapse to full runs: an uppercase run longer than 4 or a digit
run outside 3..4 can never match, so maximal munch is faithful. -/
def parseCode (cs : List Char) : Option (List Char) :=
  let ls := cs.takeWhile Char.isUpper
  let rest1 := cs.dropWhile Char.isUpper
  let ds := rest1.takeWhile Char.isDigit
  let rest2 := rest1.dropWhile Char.isDigit
  if 2 ≤ ls.length ∧ ls.length ≤ 4 ∧ 3 ≤ ds.length ∧ ds.length ≤ 4 then some rest2
  else none

/-- `CODE(\s+CODE)*` anchored at the end of the character list (the `$` of
`NOQA_RE`); `fuel` only bounds the recursion and is chosen large enough by
callers.  `\s+` is greedy and a `CODE` never starts with whitespace, so the
deterministic rendering is faithful. -/
def codeListMatch : Nat → List Char → Bool
  | 0, _ => false
  | fuel + 1, cs =>
    match parseCode cs with
    | none => false
    | some rest =>
      if rest.isEmpty then true
      else
        let ws := rest.takeWhile Char.isWhitespace
        let rest2 := rest.dropWhile Char.isWhitespace
        if ws.isEmpty then false else codeListMatch fuel rest2

/-- `NOQA_RE = //\s*noqa:\s*(CODE(\s+CODE)*)$` matched at the head of the
character list. -/
def noqaFrom (cs : List Char) : Bool :=
  match cs with
  | '/' :: '/' :: rest =>
    let rest1 := rest.dropWhile Char.isWhitespace
    if rest1.take 5 = "noqa:".data then
      let rest2 := (rest1.drop 5).dropWhile Char.isWhitespace
      codeListMatch (rest2.length + 1) rest2
    else false
  | _ => false

/-- `NOQA_RE.search`: does the regex match starting at any position?  (Rendered
over every suffix; `error_line` never contains a newline, so the `$` anchor is
plain end-of-string.) -/
def noqaSearch : List Char → Bool
  | [] => false
  | c :: rest => noqaFrom (c :: rest) || noqaSearch rest

/-- Python substring containment `needle in hay`. -/
def strContainsAux : List Char → List Char → Bool
  | hay, needle =>
    needle.isPrefixOf hay ||
      match hay with
      | [] => false
      | _ :: t => strContainsAux t needle

/-- Python `needle in hay` on strings. -/
def strContains (hay needle : String) : Bool := strContainsAux hay.data needle.data

/-- `_is_noqa` from `catscan/lint/base.py` lines 41-45.  Note the source
returns `code in noqa.string`, and `Match.string` is the WHOLE input line,
not the captured code list: once any noqa marker ends the line, the check is
a substring test against the entire line. -/
def is_noqa (error_line code : String) : Bool :=
  if noqaSearch error_line.data then strContains error_line code else false

/-- Like `codeListMatch` but collecting the matched `CODE` tokens. -/
def codeListCodes : Nat → List Char → Option (List String)
  | 0, _ => none
  | fuel + 1, cs =>
    let ls := cs.takeWhile Char.isUpper
    let rest1 := cs.dropWhile Char.isUpper
    let ds := rest1.takeWhile Char.isDigit
    let rest2 := rest1.dropWhile Char.isDigit
    if 2 ≤ ls.length ∧ ls.length ≤ 4 ∧ 3 ≤ ds.length ∧ ds.length ≤ 4 then
      if rest2.isEmpty then some [String.mk (ls ++ ds)]
      else
        let ws := rest2.takeWhile Char.isWhitespace
        let rest3 := rest2.dropWhile Char.isWhitespace
        if ws.isEmpty then none
        else
          match codeListCodes fuel rest3 with
          | none => none
          | some codes => some (String.mk (ls ++ ds) :: codes)
    else none

/-- The codes listed in the line's noqa marker: capture group 1 of `NOQA_RE`
split on whitespace — the "listed ... codes" the spec's suppression contract
speaks about (the source's `_is_noqa` computes this group but never reads
it). -/
def noqaListedCodesFrom (cs : List Char) : Option (List String) :=
  match cs with
  | '/' :: '/' :: rest =>
    let rest1 := rest.dropWhile Char.isWhitespace
    if rest1.take 5 = "noqa:".data then
      let rest2 := (rest1.drop 5).dropWhile Char.isWhitespace
      codeListCodes (rest2.length + 1) rest2
    else none
  | _ => none

/-- The listed codes of the first (leftmost) noqa marker match in the line,
mirroring `NOQA_RE.search`. -/
def noqaListedCodes : List Char → Option (List String)
  | [] => none
  | c :: rest =>
    match noqaListedCodesFrom (c :: rest) with
    | some codes => some codes
    | none => noqaListedCodes rest

/-- The observable outcome of one `LintCheck.__call__` dispatch
(`catscan/lint/base.py` lines 62-107): whether the wrapped rule function was
actually executed (`computed`), the findings pretty-printed, and the findings
yielded back to the caller. -/
structure LintCallResult where
  computed : Bool
  printed : List Finding
  yielded : List Finding
deriving DecidableEq

/-- `LintCheck.__call__` from `catscan/lint/base.py` lines 62-107, for a rule
with registered `code` whose rule function would produce `findings`.
Mirrors the source order: `_do_yield` is computed first, then the
enabled/skip gate, then the `check_level > settings.level` gate (comment in
source: `# disabled by level`) which returns before the rule function runs;
finally each produced finding is noqa-filtered, printed, and yielded only
when `_do_yield`. -/
def lintCheckCall (settings : Settings) (code : String) (findings : List Finding) :
    LintCallResult :=
  let errSettings := dictGet settings.checks code
  let doYield : Bool :=
    match errSettings with
    | none => true
    | some s => s.enabled && decide (s.level = CheckLevel.ERROR)
  let gate : Option CheckLevel :=
    match dictGet settings.checks code with
    | some cs => if cs.enabled then some cs.level else none
    | none => some CheckLevel.ERROR
  match gate with
  | none =>
    -- disabled in settings
    { computed := false, printed := [], yielded := [] }
  | some checkLevel =>
    if checkLevel.toNat > settings.level.toNat then
      -- disabled by level
      { computed := false, printed := [], yielded := [] }
    else
      let kept := findings.filter (fun f =>
        match f.errorLine with
        | none => true
        | some line => !(is_noqa line code))
      { computed := true, printed := kept, yielded := if doYield then kept else [] }

end Lint

namespace Ctx

open Tc3 Lint

/-- The part of blark's `DeclarationSummary` the context reads: the
string-encoded declared type. -/
structure DeclarationSummary where
  type : String
deriving DecidableEq

/-- The part of blark's `PropertySummary` used by resolution: its name and
`prop.getter.item.return_type.full_type_name`. -/
structure PropertySummary where
  name : String
  returnType : String
deriving DecidableEq

/-- The parts of blark's `MethodSummary` / `PropertyGetSetSummary` the context
reads.  `isProperty = true` marks a `PropertyGetSetSummary` (whose return type
is read from `item.return_type`), `false` a `MethodSummary`. -/
structure MethodSummary where
  name : String
  returnType : Option String
  isProperty : Bool
  declarations : List (String × DeclarationSummary)
deriving DecidableEq

/-- The parts of blark's `FunctionBlockSummary` the context reads. -/
structure FunctionBlockSummary where
  name : String
  extends_ : List String
  declarations : List (String × DeclarationSummary)
  properties : List PropertySummary
  methods : List MethodSummary
deriving DecidableEq

/-- The parts of blark's `CodeSummary` the context reads; `data_types` and
`functions` only matter by key presence (they resolve to the opaque
`ComplexType` marker). -/
structure CodeSummary where
  function_blocks : List (String × FunctionBlockSummary)
  data_types : List (String × Unit)
  functions : List (String × Unit)
deriving DecidableEq

/-- `get_case_insensitive_with_fixed_key` from `catscan/utils/tc3.py` lines
155-169 (the `key is None` arm cannot arise for our `String` keys). -/
def get_case_insensitive_with_fixed_key (dct : List (String × α)) (key : String) :
    Option String × Option α :=
  match dictGet dct key with
  | some v => (some key, some v)
  | none =>
    match dct.find? (fun p => streq p.1 key) with
    | some p => (some p.1, some p.2)
    | none => (none, none)

/-- `get_case_insensitive` from `catscan/utils/tc3.py`. -/
def get_case_insensitive (dct : List (String × α)) (key : String) : Option α :=
  (get_case_insensitive_with_fixed_key dct key).2

/-- The local `_dict_getter` of `Context._get_var_type`
(`catscan/lint/context.py` lines 109-113). -/
def _dict_getter (strict : Bool) (d : List (String × α)) (k : String) :
    Option String × Option α :=
  if strict then (some k, dictGet d k) else get_case_insensitive_with_fixed_key d k

/-- The local `_streq` of `Context._get_var_type`
(`catscan/lint/context.py` lines 115-116). -/
def _streq (strict : Bool) (s1 s2 : String) : Bool :=
  if strict then s1 = s2 else streq s1 s2

/-- Python `dict` union `d1 | d2` (right operand wins per key), rendered so
that first-match lookup and the insertion-order scan agree with the dict. -/
def dictUnion (d1 d2 : List (String × α)) : List (String × α) :=
  d1.map (fun p =>
    match dictGet d2 p.1 with
    | some v => (p.1, v)
    | none => p) ++
  d2.filter (fun p => (dictGet d1 p.1).isNone)

/-- Modelled from the spec: `squash_base_extends` lives in the external
parsing collaborator (blark's summaries), not under the analyzed sources.
Spec glossary: "Squash/flatten: computing a type's full effective member set
by merging ancestor members along the `extends` chain", with the spec's
case-insensitive name lookup; a member declared in the derived type keeps
precedence over an ancestor member of the same name.  `fuel` bounds the chain
walk (callers pass more than the number of known function blocks). -/
def squash_base_extends (fuel : Nat) (fbs : List (String × FunctionBlockSummary))
    (fb : FunctionBlockSummary) : FunctionBlockSummary :=
  match fuel with
  | 0 => fb
  | fuel + 1 =>
    fb.extends_.foldl (fun acc ext =>
      match get_case_insensitive fbs ext with
      | none => acc
      | some base =>
        let sq := squash_base_extends fuel fbs base
        { acc with
          declarations := acc.declarations ++ sq.declarations.filter
            (fun p => !(acc.declarations.any (fun q => streq q.1 p.1))),
          properties := acc.properties ++ sq.properties.filter
            (fun p => !(acc.properties.any (fun q => streq q.name p.name))),
          methods := acc.methods ++ sq.methods.filter
            (fun p => !(acc.methods.any (fun q => streq q.name p.name))) }) fb

/-- A resolved variable type: either a type string or the opaque `ComplexType`
marker object of `catscan/lint/context.py`. -/
inductive VarType
  | typ (s : String)
  | complex
deriving DecidableEq

/-- `Context` from `catscan/lint/context.py`: the immutable program summary
and settings plus the mutable scope state (`var_stack`, `_current_fb`,
`_current_method`).  `__post_init__`'s collected-globals bottom layer is the
first element of `var_stack` in the instances below. -/
structure Context where
  code : CodeSummary
  settings : Settings
  var_stack : List (List (String × DeclarationSummary))
  _current_fb : Option FunctionBlockSummary
  _current_method : Option MethodSummary
deriving DecidableEq

/-- `Context._get_fb_decl_types` (`catscan/lint/context.py` lines 332-343):
field names and types of a function block definition including inherited
members, as the dict union `decls | props | methods`. -/
def _get_fb_decl_types (fbs : List (String × FunctionBlockSummary))
    (fb : FunctionBlockSummary) : List (String × VarType) :=
  let squashed := squash_base_extends (fbs.length + 1) fbs fb
  let decls := squashed.declarations.map (fun p => (p.1, VarType.typ p.2.type))
  let props := squashed.properties.map (fun p => (p.name, VarType.typ p.returnType))
  let methods := squashed.methods.map (fun m => (m.name, VarType.complex))
  dictUnion (dictUnion decls props) methods

/-- The `for ext in self._current_fb.extends` walk of the `SUPER` branch of
`Context._get_var_type` (`catscan/lint/context.py` lines 138-155): the first
extension whose squashed methods + properties contain the active method's
name. -/
def findSuperExt (fbs : List (String × FunctionBlockSummary)) (strict : Bool)
    (mname : String) : List String → Option String
  | [] => none
  | ext :: rest =>
    match (_dict_getter strict fbs ext).2 with
    | none => findSuperExt fbs strict mname rest
    | some ext_fb =>
      let sq := squash_base_extends (fbs.length + 1) fbs ext_fb
      if sq.methods.any (fun m => _streq strict m.name mname) ||
          sq.properties.any (fun p => _streq strict p.name mname) then some ext
      else findSuperExt fbs strict mname rest

/-- The `for layer in reversed(self.var_stack)` loop closing
`Context._get_var_type` (`catscan/lint/context.py` lines 195-198). -/
def varStackLookup (strict : Bool) : List (List (String × DeclarationSummary)) →
    String → Option String × Option VarType
  | [], _ => (none, none)
  | layer :: rest, var =>
    match _dict_getter strict layer var with
    | (k, some decl) => (k, some (VarType.typ decl.type))
    | _ => varStackLookup strict rest var

/-- `Context._get_var_type` (`catscan/lint/context.py` lines 98-200):
resolution order THIS → SUPER → builtin symbols → complex entities
(data types, function blocks, builtin conversions, builtin functions,
program functions) → active function-block members → active method name →
declaration layers innermost-out; unresolved is `(None, None)`; the
`TypeError` raises become `Except.error`. -/
def _get_var_type (ctx : Context) (var : String) (strict : Bool) :
    Except String (Option String × Option VarType) :=
  match ["THIS", "THIS^"].find? (fun th => _streq strict var th) with
  | some th =>
    match ctx._current_fb with
    | none => .error "THIS used outside of function block"
    | some fb => .ok (some th, some (VarType.typ fb.name))
  | none =>
  match ["SUPER", "SUPER^"].find? (fun sp => _streq strict var sp) with
  | some supr =>
    match ctx._current_fb with
    | none => .error "SUPER used outside of function block"
    | some fb =>
      match ctx._current_method with
      | none =>
        -- just take the first extension; `extends[0]` raises on an empty list
        match fb.extends_.head? with
        | some ext => .ok (some supr, some (VarType.typ ext))
        | none => .error "IndexError: extends[0]"
      | some meth =>
        match findSuperExt ctx.code.function_blocks strict meth.name fb.extends_ with
        | some ext => .ok (some supr, some (VarType.typ ext))
        | none =>
          -- proper extension not found: logged warning, unresolved type
          .ok (some supr, none)
  | none =>
  match _dict_getter strict ctx.settings.builtin_symbols var with
  | (k, some typ) => .ok (k, some (VarType.typ typ))
  | _ =>
  match _dict_getter strict ctx.code.data_types var with
  | (k, some _) => .ok (k, some VarType.complex)
  | _ =>
  match _dict_getter strict ctx.code.function_blocks var with
  | (k, some _) => .ok (k, some VarType.complex)
  | _ =>
  match _dict_getter strict Tc3.BUILTIN_TYPE_CONVERSIONS var with
  | (k, some _) => .ok (k, some VarType.complex)
  | _ =>
  match _dict_getter strict Tc3.BUILTIN_FUNCTIONS var with
  | (k, some _) => .ok (k, some VarType.complex)
  | _ =>
  match _dict_getter strict ctx.code.functions var with
  | (k, some _) => .ok (k, some VarType.complex)
  | _ =>
  match
    (match ctx._current_fb with
     | some fb => _dict_getter strict (_get_fb_decl_types ctx.code.function_blocks fb) var
     | none => (none, none)) with
  | (k, some typ) => .ok (k, some typ)
  | _ =>
  match ctx._current_method with
  | some meth =>
    if _streq strict meth.name var then
      if meth.isProperty then .ok (some meth.name, (meth.returnType).map VarType.typ)
      else
        match meth.returnType with
        | none => .error "Method has no return type"
        | some rt => .ok (some meth.name, some (VarType.typ rt))
    else
      match varStackLookup strict ctx.var_stack.reverse var with
      | (k, some typ) => .ok (k, some typ)
      | _ => .ok (none, none)
  | none =>
    match varStackLookup strict ctx.var_stack.reverse var with
    | (k, some typ) => .ok (k, some typ)
    | _ => .ok (none, none)

/-- `Context.get_var_type` (`catscan/lint/context.py` lines 202-205). -/
def get_var_type (ctx : Context) (var : String) (strict : Bool) :
    Except String (Option VarType) :=
  (_get_var_type ctx var strict).map (fun p => p.2)

/-- `Context.function_block` (`catscan/lint/context.py` lines 349-357): a
`@contextmanager` generator `assert ...; self._current_fb = fb; yield;
self._current_fb = None` used around a `body` that may raise.  Python
semantics: on a normal body exit the generator resumes and the post-`yield`
reset runs; on an exception the exception is thrown into the generator at the
`yield`, and since the generator has no `try`/`finally`, the reset after the
`yield` never executes and the exception propagates with the scope state left
as the body left it. -/
def function_block_scope (ctx : Context) (fb : FunctionBlockSummary)
    (body : Context → Context × Except String α) : Context × Except String α :=
  if ctx._current_fb ≠ none then (ctx, .error "AssertionError")
  else
    let entered := { ctx with _current_fb := some fb }
    match body entered with
    | (after, .ok a) => ({ after with _current_fb := none }, .ok a)
    | (after, .error e) => (after, .error e)

/-- `Context.method` (`catscan/lint/context.py` lines 363-368) together with
`_push_stack_context` (lines 31-34): sets `_current_method`, appends the
method's declarations to `var_stack`, yields, then pops and resets — with the
same `@contextmanager` caveat as `function_block_scope`: on an exception in
the body neither the pop nor the reset runs. -/
def method_scope (ctx : Context) (meth : MethodSummary)
    (body : Context → Context × Except String α) : Context × Except String α :=
  if ctx._current_method ≠ none then (ctx, .error "AssertionError")
  else
    let entered := { ctx with
      _current_method := some meth,
      var_stack := ctx.var_stack ++ [meth.declarations] }
    match body entered with
    | (after, .ok a) =>
      ({ after with _current_method := none, var_stack := after.var_stack.dropLast }, .ok a)
    | (after, .error e) => (after, .error e)

/-- Scenario for the scope-restore property: an empty program summary and
default settings. -/
def c4_code : CodeSummary := { function_blocks := [], data_types := [], functions := [] }

/-- Default-valued settings (`level = WARNING`, no per-check settings, no
builtin symbols). -/
def c4_settings : Settings :=
  { level := Lint.CheckLevel.WARNING, checks := [], builtin_symbols := [] }

/-- A function block summary entered in the scope-restore scenario. -/
def c4_fb : FunctionBlockSummary :=
  { name := "FB_A", extends_ := [], declarations := [], properties := [], methods := [] }

/-- A method summary entered in the scope-restore scenario. -/
def c4_meth : MethodSummary :=
  { name := "M_Test", returnType := none, isProperty := false,
    declarations := [("s_nLocal", { type := "INT" })] }

/-- The context at run start: no active function block or method, the
collected-globals bottom layer on the variable stack. -/
def c4_ctx0 : Context :=
  { code := c4_code, settings := c4_settings, var_stack := [[]],
    _current_fb := none, _current_method := none }

/-- Inheritance scenario: function block named `a` declaring field `f : BOOL`. -/
def c7_fbA (a f : String) : FunctionBlockSummary :=
  { name := a, extends_ := [], declarations := [(f, { type := "BOOL" })],
    properties := [], methods := [] }

/-- Inheritance scenario: function block named `b` extending `a`, declaring
nothing of its own. -/
def c7_fbB (a b : String) : FunctionBlockSummary :=
  { name := b, extends_ := [a], declarations := [], properties := [], methods := [] }

/-- Inheritance scenario: a context whose program holds exactly `a` and `b`
with `b EXTENDS a`, with `b` the active function block and no active method. -/
def c7_ctx (a b f : String) : Context :=
  { code := { function_blocks := [(a, c7_fbA a f), (b, c7_fbB a b)],
              data_types := [], functions := [] },
    settings := c4_settings,
    var_stack := [[]],
    _current_fb := some (c7_fbB a b),
    _current_method := none }

end Ctx

namespace Program

open Tc3

/-- Expressions (blark `tf.Expression`), restricted to the constructors the
analyzed routines use: literals, `SimpleVariable` references, and
`FunctionCall`s whose callee is a simple name.  A call parameter is
`(isOutput, value)`: `isOutput = true` models an
`OutputParameterAssignment` (with the target name irrelevant to the scans
below), `false` an `InputParameterAssignment`. -/
inductive Expr
  | lit (value : Int)
  | evar (name : String)
  | call (name : String) (params : List (Bool × Option Expr))

/-- Statements (blark `tf.Statement`), restricted to the constructors
`_get_program_graph` dispatches on that the claims exercise.  `assign`
models an `AssignmentStatement` whose targets are `SimpleVariable`s.
`whileS`/`repeatS`/`forS` are handled by one source branch (the
`tf.WhileStatement | tf.RepeatStatement | tf.ForStatement` isinstance). -/
inductive Stmt
  | assign (vars : List String) (expression : Expr)
  | ifS (if_expression : Expr) (statements : List Stmt)
        (else_ifs : List (Expr × List Stmt)) (else_clause : Option (List Stmt))
  | caseS (expression : Expr) (cases : List (String × List Stmt))
          (else_clause : Option (List Stmt))
  | whileS (expression : Expr) (statements : List Stmt)
  | repeatS (statements : List Stmt) (expression : Expr)
  | forS (control : String) (from_ : Expr) (to_ : Expr) (statements : List Stmt)
  | labeled (label : String) (statement : Option Stmt)
  | exitS
  | continueS
  | returnS

mutual

/-- Structural equality on embedded expressions (`DecidableEq` cannot be
derived for nested inductives here); used to model Python object identity —
the embedded statements and expressions of one routine are pairwise distinct
values. -/
def exprBeq : Expr → Expr → Bool
  | .lit a, .lit b => a == b
  | .evar a, .evar b => a == b
  | .call n1 p1, .call n2 p2 => n1 == n2 && paramsBeq p1 p2
  | _, _ => false

/-- Equality on call-parameter lists. -/
def paramsBeq : List (Bool × Option Expr) → List (Bool × Option Expr) → Bool
  | [], [] => true
  | (o1, v1) :: r1, (o2, v2) :: r2 =>
    o1 == o2 &&
    (match v1, v2 with
     | none, none => true
     | some a, some b => exprBeq a b
     | _, _ => false) && paramsBeq r1 r2
  | _, _ => false

end

mutual

/-- Structural equality on embedded statements, modelling Python object
identity (`is`) for the statements of one routine. -/
def stmtBeq : Stmt → Stmt → Bool
  | .assign v1 e1, .assign v2 e2 => v1 == v2 && exprBeq e1 e2
  | .ifS c1 s1 ei1 el1, .ifS c2 s2 ei2 el2 =>
    exprBeq c1 c2 && stmtsBeq s1 s2 && elifsBeq ei1 ei2 &&
    (match el1, el2 with
     | none, none => true
     | some a, some b => stmtsBeq a b
     | _, _ => false)
  | .caseS e1 c1 el1, .caseS e2 c2 el2 =>
    exprBeq e1 e2 && casesBeq c1 c2 &&
    (match el1, el2 with
     | none, none => true
     | some a, some b => stmtsBeq a b
     | _, _ => false)
  | .whileS e1 s1, .whileS e2 s2 => exprBeq e1 e2 && stmtsBeq s1 s2
  | .repeatS s1 e1, .repeatS s2 e2 => stmtsBeq s1 s2 && exprBeq e1 e2
  | .forS v1 f1 t1 s1, .forS v2 f2 t2 s2 =>
    v1 == v2 && exprBeq f1 f2 && exprBeq t1 t2 && stmtsBeq s1 s2
  | .labeled l1 s1, .labeled l2 s2 =>
    l1 == l2 &&
    (match s1, s2 with
     | none, none => true
     | some a, some b => stmtBeq a b
     | _, _ => false)
  | .exitS, .exitS => true
  | .continueS, .continueS => true
  | .returnS, .returnS => true
  | _, _ => false
termination_by structural s _ => s

/-- Equality on statement lists. -/
def stmtsBeq : List Stmt → List Stmt → Bool
  | [], [] => true
  | a :: r1, b :: r2 => stmtBeq a b && stmtsBeq r1 r2
  | _, _ => false
termination_by structural l _ => l

/-- Equality on elsif-arm lists. -/
def elifsBeq : List (Expr × List Stmt) → List (Expr × List Stmt) → Bool
  | [], [] => true
  | (c1, s1) :: r1, (c2, s2) :: r2 => exprBeq c1 c2 && stmtsBeq s1 s2 && elifsBeq r1 r2
  | _, _ => false
termination_by structural l _ => l

/-- Equality on case-arm lists. -/
def casesBeq : List (String × List Stmt) → List (String × List Stmt) → Bool
  | [], [] => true
  | (m1, s1) :: r1, (m2, s2) :: r2 => m1 == m2 && stmtsBeq s1 s2 && casesBeq r1 r2
  | _, _ => false
termination_by structural l _ => l

end

/-- `ProgramNode` from `src/catscan/utils/program.py`: a basic block with an
optional label, the owning control statement, predecessor/successor sets and
the ordered contained statements.  Nodes live in an arena (`Graph`) and are
identified by index; the Python `set`s `prev`/`next` are rendered as
insertion-ordered duplicate-free lists. -/
structure PNode where
  label : Option String
  stat : Option Stmt
  prev : List Nat
  next : List Nat
  statements : List Stmt

/-- The arena holding every `ProgramNode` created while building one routine's
graph; object identity is the arena index. -/
structure Graph where
  nodes : Array PNode

/-- A fresh `ProgramNode(label=..., stat=...)`. -/
def mkNode (label : Option String) (stat : Option Stmt) : PNode :=
  { label := label, stat := stat, prev := [], next := [], statements := [] }

/-- Allocate a fresh node, returning its index. -/
def newNode (g : Graph) (label : Option String) (stat : Option Stmt) : Graph × Nat :=
  ({ nodes := g.nodes.push (mkNode label stat) }, g.nodes.size)

/-- `set.add` semantics for the rendered edge lists. -/
def listInsert (l : List Nat) (x : Nat) : List Nat :=
  if x ∈ l then l else l ++ [x]

/-- The edge bookkeeping shared by `ProgramNode.add_next`/`add_prev`:
`a.next.add(b); b.prev.add(a)`. -/
def addEdge (g : Graph) (a b : Nat) : Graph :=
  let g1 : Graph :=
    { nodes := g.nodes.modify a (fun nd => { nd with next := listInsert nd.next b }) }
  { nodes := g1.nodes.modify b (fun nd => { nd with prev := listInsert nd.prev a }) }

/-- `node.add_next(**kwargs)` with `node=None`: create a fresh node and link
it after `a`. -/
def addNextNew (g : Graph) (a : Nat) (label : Option String) (stat : Option Stmt) :
    Graph × Nat :=
  let (g1, idx) := newNode g label stat
  (addEdge g1 a idx, idx)

/-- `node.statements.append(stmt)`. -/
def appendStmt (g : Graph) (a : Nat) (s : Stmt) : Graph :=
  { nodes := g.nodes.modify a (fun nd => { nd with statements := nd.statements ++ [s] }) }

mutual

/-- `_get_program_graph` from `src/catscan/utils/program.py` lines 52-232, for
a single statement appended after node `endIdx`; returns the updated arena
and the new end node (`none` when the following code is unreachable).  Node
labels are kept as constant tags (the source embeds a debug rendering of the
controlling expression; no query reads labels).  `EXIT`/`CONTINUE` outside a
loop raise `ValueError`. -/
def buildStmt (g : Graph) (stmt : Stmt) (endIdx : Nat)
    (exitDest contDest : Option Nat) : Except String (Graph × Option Nat) :=
  match stmt with
  | .ifS _cond thenStmts elifs elseOpt => do
    let (g, ifEnd) := newNode g (some "if_end") none
    let (g, thenHead) := addNextNew g endIdx (some "if") (some stmt)
    let (g, tEnd) ← buildStmts g thenStmts thenHead exitDest contDest
    let g := match tEnd with | some e => addEdge g e ifEnd | none => g
    let g ← buildElifs g elifs endIdx ifEnd exitDest contDest
    let g ← match elseOpt with
      | some elseStmts => do
        let (g, elseHead) := addNextNew g endIdx (some "else") none
        let (g, eEnd) ← buildStmts g elseStmts elseHead exitDest contDest
        pure (match eEnd with | some e => addEdge g e ifEnd | none => g)
      | none =>
        -- no else clause means an implicit empty else clause
        let (g, elseHead) := addNextNew g endIdx (some "_else") none
        pure (addEdge g elseHead ifEnd)
    pure (g, some ifEnd)
  | .caseS _expr cases elseOpt => do
    let (g, caseNode) := addNextNew g endIdx (some "CASE") (some stmt)
    let (g, caseEnd) := newNode g (some "case_end") none
    let g ← buildCases g stmt cases caseNode caseEnd exitDest contDest
    let g ← match elseOpt with
      | some elseStmts => do
        let (g, elseHead) := addNextNew g caseNode (some "else") none
        let (g, eEnd) ← buildStmts g elseStmts elseHead exitDest contDest
        pure (match eEnd with | some e => addEdge g e caseEnd | none => g)
      | none => pure g
    -- if all cases exit, the graph is just disconnected, which is okay
    pure (g, some caseEnd)
  | .whileS _ body | .repeatS body _ | .forS _ _ _ body => do
    let (g, loop) := addNextNew g endIdx (some "loop") (some stmt)
    let (g, loopStart) := addNextNew g loop (some "loop_start") none
    let (g, loopEnd) := newNode g (some "loop_end") none
    let (g, bEnd) ← buildStmts g body loopStart (some loopEnd) (some loopStart)
    let g := match bEnd with | some e => addEdge g e loopEnd | none => g
    -- condition false, add empty node
    let (g, elseN) := addNextNew g loop (some "_else") none
    pure (addEdge g elseN loopEnd, some loopEnd)
  | .labeled lbl inner =>
    let (g, newEnd) := addNextNew g endIdx (some lbl) (some stmt)
    let g := match inner with | some s => appendStmt g newEnd s | none => g
    .ok (g, some newEnd)
  | .exitS =>
    match exitDest with
    | none => .error "EXIT used outside of loop"
    | some d =>
      let g := appendStmt g endIdx stmt
      .ok (addEdge g endIdx d, none)  -- unreachable code after
  | .continueS =>
    match contDest with
    | none => .error "CONTINUE used outside of loop"
    | some d =>
      let g := appendStmt g endIdx stmt
      .ok (addEdge g endIdx d, none)  -- unreachable code after
  | .returnS => .ok (appendStmt g endIdx stmt, none)  -- unreachable code after
  | .assign _ _ => .ok (appendStmt g endIdx stmt, some endIdx)

/-- The `tf.StatementList` branch of `_get_program_graph`: fold the statements
onto the current end.  Once the end became `none` every remaining statement's
recursive call returns `(start, None)` immediately (so an `EXIT` in
unreachable code is never inspected). -/
def buildStmts (g : Graph) (stmts : List Stmt) (endIdx : Nat)
    (exitDest contDest : Option Nat) : Except String (Graph × Option Nat) :=
  match stmts with
  | [] => .ok (g, some endIdx)
  | s :: rest => do
    let (g2, eOpt) ← buildStmt g s endIdx exitDest contDest
    match eOpt with
    | none => .ok (g2, none)
    | some e2 => buildStmts g2 rest e2 exitDest contDest

/-- The `for elsif in obj.else_ifs` loop of the if-statement branch. -/
def buildElifs (g : Graph) (elifs : List (Expr × List Stmt)) (endIdx ifEnd : Nat)
    (exitDest contDest : Option Nat) : Except String Graph :=
  match elifs with
  | [] => .ok g
  | (_c, ss) :: rest => do
    let (g, elifHead) := addNextNew g endIdx (some "elsif") none
    let (g2, eEnd) ← buildStmts g ss elifHead exitDest contDest
    let g3 := match eEnd with | some e => addEdge g2 e ifEnd | none => g2
    buildElifs g3 rest endIdx ifEnd exitDest contDest

/-- The `for case in obj.cases` loop of the case-statement branch (each arm
head carries `stat=obj`). -/
def buildCases (g : Graph) (origStmt : Stmt) (cases : List (String × List Stmt))
    (caseNode caseEnd : Nat) (exitDest contDest : Option Nat) : Except String Graph :=
  match cases with
  | [] => .ok g
  | (labelStr, ss) :: rest => do
    let (g, armHead) := addNextNew g caseNode (some labelStr) (some origStmt)
    let (g2, aEnd) ← buildStmts g ss armHead exitDest contDest
    let g3 := match aEnd with | some e => addEdge g2 e caseEnd | none => g2
    buildCases g3 origStmt rest caseNode caseEnd exitDest contDest

end

/-- `get_program_graph` on a `tf.StatementList` routine body: allocate the
shared start/end node (always index 0, the entry) and fold the statements.
(The `MethodSummary` branch builds the identical graph: its extra
`if end is None: break` only skips calls that would no-op.) -/
def get_program_graph (stmts : List Stmt) : Except String (Graph × Option Nat) :=
  let (g, start) := newNode { nodes := Array.mkEmpty 0 } none none
  buildStmts g stmts start none none

mutual

/-- `get_subexpressions` from `src/catscan/utils/program.py` lines 470-543
with `include_assigned_values=False`, on the embedded constructors: yield the
expression, then for a call walk the parameters — an output parameter
`return`s out of the whole scan, a parameter value recurses.  (The source
never yields the callee name.) -/
def get_subexpressions : Expr → List Expr
  | .lit v => [.lit v]
  | .evar n => [.evar n]
  | .call n ps => .call n ps :: subexprParams ps

/-- The `for param in expr.parameters` loop of `get_subexpressions`. -/
def subexprParams : List (Bool × Option Expr) → List Expr
  | [] => []
  | (isOut, val) :: rest =>
    if isOut then []
    else
      (match val with
       | some v => get_subexpressions v
       | none => []) ++ subexprParams rest

end

mutual

/-- `get_expressions` (`_get_expressions` with `outer=True`,
`include_assigned_values=False`, lines 413-467) on the embedded constructors:
an assignment yields only its right-hand side; `if`/`elsif` conditions are
yielded through the dataclass-field walk while nested statements are skipped
at `outer=False`; a `for` statement yields its bounds and recurses into its
body statements. -/
def get_expressions : Stmt → List Expr
  | .assign _ e => [e]
  | .ifS c _ elifs _ => c :: elifs.map (fun p => p.1)
  | .caseS e _ _ => [e]
  | .whileS c _ => [c]
  | .repeatS _ c => [c]
  | .forS _ f t body => f :: t :: get_expressions_list body
  | .labeled _ _ => []
  | .exitS => []
  | .continueS => []
  | .returnS => []

/-- The body-statement walk of the `ForStatement` arm of `_get_expressions`. -/
def get_expressions_list : List Stmt → List Expr
  | [] => []
  | s :: rest => get_expressions s ++ get_expressions_list rest

end

/-- `is_assignment_for` from `src/catscan/utils/program.py` lines 552-604 on
the embedded constructors: direct assignment targets (or a FOR control
variable) match case-insensitively; otherwise every subexpression of every
yielded expression is scanned for `ADR(varname)` calls (when
`adr_is_assignment`) and for output-parameter assignments to `varname`.
(The source reads `parameters[0].value.name` for the ADR check; a
non-`SimpleVariable` first parameter — which would raise in Python — does
not match here.) -/
def is_assignment_for (varname : String) (stat : Stmt) (adr_is_assignment : Bool) :
    Bool :=
  let is_assignment :=
    match stat with
    | .assign vs _ => vs.any (fun v => streq v varname)
    | .forS ctrl _ _ _ => streq ctrl varname
    | _ => false
  if is_assignment then true
  else
    (get_expressions stat).any (fun e =>
      (get_subexpressions e).any (fun se =>
        match se with
        | .call nm ps =>
          (adr_is_assignment && streq nm "ADR" &&
            (match ps.head? with
             | some p =>
               match p.2 with
               | some (.evar v) => streq v varname
               | _ => false
             | none => false)) ||
          ps.any (fun p =>
            p.1 && (match p.2 with
                    | some (.evar v) => streq v varname
                    | _ => false))
        | _ => false))

/-- Every node index occurring in some `next` set — the pool of indices the
forward worklists can ever insert. -/
def allSucc (g : Graph) : List Nat :=
  (g.nodes.toList.flatMap (fun nd => nd.next)).dedup

/-- Every node index occurring in some `prev` set — the pool of indices the
backward worklist can ever insert. -/
def allPred (g : Graph) : List Nat :=
  (g.nodes.toList.flatMap (fun nd => nd.prev)).dedup

/-- The node test of `_find_statement_node`: the node's owning statement or a
contained statement is the target. -/
def nodeContains (nd : PNode) (target : Stmt) : Bool :=
  (match nd.stat with
   | some s => stmtBeq s target
   | none => false) || nd.statements.any (fun s => stmtBeq s target)

/-- `_find_statement_node`'s worklist (`src/catscan/utils/program.py` lines
274-296), rendered deterministically (pop the head, prepend unseen
successors); the outer `Option` is `none` only when `fuel` runs out, which
the chosen fuel provably prevents. -/
def findLoop (g : Graph) (target : Stmt) :
    Nat → List Nat → List Nat → Option (Option Nat)
  | 0, todo, _ => if todo.isEmpty then some none else none
  | fuel + 1, todo, visited =>
    match todo with
    | [] => some none
    | n :: rest =>
      let visited2 := n :: visited
      let nd := g.nodes.getD n (mkNode none none)
      if nodeContains nd target then some (some n)
      else
        let todo2 := nd.next.foldl
          (fun td nx => if nx ∈ visited2 ∨ nx ∈ td then td else nx :: td) rest
        findLoop g target fuel todo2 visited2

/-- The per-node satisfaction test of `_predicate_on_all_code_paths` (lines
313-319): the predicate holds for the owning statement or for some contained
statement. -/
def nodeSatisfied (nd : PNode) (pred : Stmt → Bool) : Bool :=
  (match nd.stat with
   | some s => pred s
   | none => false) || nd.statements.any pred

/-- The worklist of `_predicate_on_all_code_paths` (lines 299-330), rendered
deterministically; each worklist entry carries the path that reached it; the
outer `Option` is `none` only on fuel exhaustion (provably impossible at the
fuel used by `predicate_on_all_code_paths`). -/
def predLoop (g : Graph) (pred : Stmt → Bool) :
    Nat → List (Nat × List Nat) → List Nat → Option (Option (List Nat))
  | 0, todo, _ => if todo.isEmpty then some none else none
  | fuel + 1, todo, visited =>
    match todo with
    | [] => some none
    | (n, path) :: rest =>
      let visited2 := n :: visited
      let nd := g.nodes.getD n (mkNode none none)
      if nodeSatisfied nd pred then predLoop g pred fuel rest visited2
      else if nd.next.isEmpty then some (some (path ++ [n]))
      else
        let todo2 := nd.next.foldl
          (fun td nx =>
            if nx ∈ visited2 ∨ nx ∈ td.map Prod.fst then td
            else (nx, path ++ [n]) :: td) rest
        predLoop g pred fuel todo2 visited2

/-- The statement scan of `_is_node_ok` (lines 360-370): the target aborts
with failure, a predicate hit succeeds, scanning stops at the first of the
two. -/
def scanStatements : List Stmt → Stmt → (Stmt → Bool) → Bool
  | [], _, _ => false
  | s :: rest, target, pred =>
    if stmtBeq s target then false
    else if pred s then true
    else scanStatements rest target pred

/-- `_is_node_ok` of `_predicate_on_all_code_paths_to` (lines 351-370). -/
def isNodeOk (nd : PNode) (target : Stmt) (pred : Stmt → Bool) : Bool :=
  if (match nd.stat with
      | some s => stmtBeq s target
      | none => false) then false
  else if (match nd.stat with
           | some s => pred s
           | none => false) then true
  else scanStatements nd.statements target pred

/-- The backward worklist of `_predicate_on_all_code_paths_to` (lines
348-385), over predecessor edges. -/
def predToLoop (g : Graph) (target : Stmt) (pred : Stmt → Bool) :
    Nat → List (Nat × List Nat) → List Nat → Option (Option (List Nat))
  | 0, todo, _ => if todo.isEmpty then some none else none
  | fuel + 1, todo, visited =>
    match todo with
    | [] => some none
    | (n, path) :: rest =>
      let visited2 := n :: visited
      let nd := g.nodes.getD n (mkNode none none)
      if isNodeOk nd target pred then predToLoop g target pred fuel rest visited2
      else if nd.prev.isEmpty then some (some (n :: path))
      else
        let todo2 := nd.prev.foldl
          (fun td pv =>
            if pv ∈ visited2 ∨ pv ∈ td.map Prod.fst then td
            else (pv, n :: path) :: td) rest
        predToLoop g target pred fuel todo2 visited2

/-- `_find_statement_node` at its standard fuel. -/
def find_statement_node (g : Graph) (target : Stmt) : Option (Option Nat) :=
  findLoop g target (0 :: allSucc g).length [0] []

/-- `_predicate_on_all_code_paths` (lines 299-330): build the graph, then run
the forward worklist from the entry.  The inner value is the failing path
(`none` when the predicate holds on all code paths); the middle `Option` is
the fuel marker. -/
def predicate_on_all_code_paths (stmts : List Stmt) (pred : Stmt → Bool) :
    Except String (Option (Option (List Nat))) := do
  let (g, _) ← get_program_graph stmts
  pure (predLoop g pred (0 :: allSucc g).length [(0, [])] [])

/-- `_predicate_on_all_code_paths_to` (lines 333-385): build the graph, find
the target's node, then run the backward worklist; a target not found means
there are no code paths, hence no failing path. -/
def predicate_on_all_code_paths_to (stmts : List Stmt) (target : Stmt)
    (pred : Stmt → Bool) : Except String (Option (Option (List Nat))) := do
  let (g, _) ← get_program_graph stmts
  match find_statement_node g target with
  | none => pure none
  | some none => pure (some none)
  | some (some tgtNode) =>
    pure (predToLoop g target pred (tgtNode :: allPred g).length [(tgtNode, [])] [])

/-- `has_assignment` (lines 607-613): true iff the forward query finds no
failing path. -/
def has_assignment (stmts : List Stmt) (varname : String) : Except String Bool := do
  let failing_path ← predicate_on_all_code_paths stmts
    (fun s => is_assignment_for varname s true)
  pure (decide (failing_path = some none))

/-- `has_assignment_before` (lines 616-625): true iff the backward query
finds no failing path. -/
def has_assignment_before (stat : Stmt) (stmts : List Stmt) (varname : String) :
    Except String Bool := do
  let failing_path ← predicate_on_all_code_paths_to stmts stat
    (fun s => is_assignment_for varname s true)
  pure (decide (failing_path = some none))

/-- Reachability along `next` edges in a built graph. -/
inductive ReachableFrom (g : Graph) (root : Nat) : Nat → Prop
  | refl : ReachableFrom g root root
  | step {b c : Nat} : ReachableFrom g root b →
      c ∈ (g.nodes.getD b (mkNode none none)).next → ReachableFrom g root c

/-- Projection used by closed counterexamples: the graph of a successful
construction (an empty arena for the error case, which the statements using
this never hit). -/
def graphOf (r : Except String (Graph × Option Nat)) : Graph :=
  match r with
  | .ok p => p.1
  | .error _ => { nodes := Array.mkEmpty 0 }

/-- Whether construction succeeded. -/
def buildOk (r : Except String (Graph × Option Nat)) : Bool :=
  match r with
  | .ok _ => true
  | .error _ => false

/-- The routine of the loop-shape counterexample: a single `WHILE` loop whose
body assigns `x`. -/
def c1prog : List Stmt := [Stmt.whileS (Expr.evar "cond") [Stmt.assign ["x"] (Expr.lit 1)]]

/-- The node stored at arena index `i` (the default for an absent index is an
empty fresh node, which has no edges). -/
def nodeAt (g : Graph) (i : Nat) : PNode := g.nodes.getD i (mkNode none none)

/-- What one construction step of `_get_program_graph` guarantees about the
arena: nodes are only appended (sizes grow); the `label` and `stat` of every
pre-existing node are unchanged (construction only ever touches `next`,
`prev` and `statements` of existing nodes); successor edges are only added,
never removed; and every NEW successor edge points either at a node
allocated during the step or at an `allowed` index (the step's
EXIT/CONTINUE destinations and branch-join nodes). -/
def BuildStep (g0 g1 : Graph) (allowed : Nat → Prop) : Prop :=
  g0.nodes.size ≤ g1.nodes.size ∧
  (∀ i, i < g0.nodes.size →
    (nodeAt g1 i).stat = (nodeAt g0 i).stat ∧ (nodeAt g1 i).label = (nodeAt g0 i).label) ∧
  (∀ i t, t ∈ (nodeAt g0 i).next → t ∈ (nodeAt g1 i).next) ∧
  (∀ i t, t ∈ (nodeAt g1 i).next →
    t ∈ (nodeAt g0 i).next ∨ g0.nodes.size ≤ t ∨ allowed t)

/-- The loop arm of `buildStmt` (the `tf.WhileStatement | tf.RepeatStatement
| tf.ForStatement` branch of `_get_program_graph`) as a standalone function;
definitionally equal to `buildStmt g stmt endIdx exitDest contDest` whenever
`stmt` is a loop statement with body `body`. -/
def loopArmBuild (g : Graph) (stmt : Stmt) (body : List Stmt) (endIdx : Nat)
    (_exitDest _contDest : Option Nat) : Except String (Graph × Option Nat) := do
  let (g, loop) := addNextNew g endIdx (some "loop") (some stmt)
  let (g, loopStart) := addNextNew g loop (some "loop_start") none
  let (g, loopEnd) := newNode g (some "loop_end") none
  let (g, bEnd) ← buildStmts g body loopStart (some loopEnd) (some loopStart)
  let g := match bEnd with | some e => addEdge g e loopEnd | none => g
  let (g, elseN) := addNextNew g loop (some "_else") none
  pure (addEdge g elseN loopEnd, some loopEnd)

/-- The `tf.IfStatement` arm of `_get_program_graph` as a standalone function;
definitionally equal to `buildStmt g stmt endIdx exitDest contDest` whenever
`stmt` is an if statement with the given branches (text copied verbatim from
the arm of `buildStmt`). -/
def ifArmBuild (g : Graph) (stmt : Stmt) (thenStmts : List Stmt)
    (elifs : List (Expr × List Stmt)) (elseOpt : Option (List Stmt)) (endIdx : Nat)
    (exitDest contDest : Option Nat) : Except String (Graph × Option Nat) := do
  let (g, ifEnd) := newNode g (some "if_end") none
  let (g, thenHead) := addNextNew g endIdx (some "if") (some stmt)
  let (g, tEnd) ← buildStmts g thenStmts thenHead exitDest contDest
  let g := match tEnd with | some e => addEdge g e ifEnd | none => g
  let g ← buildElifs g elifs endIdx ifEnd exitDest contDest
  let g ← match elseOpt with
    | some elseStmts => do
      let (g, elseHead) := addNextNew g endIdx (some "else") none
      let (g, eEnd) ← buildStmts g elseStmts elseHead exitDest contDest
      pure (match eEnd with | some e => addEdge g e ifEnd | none => g)
    | none =>
      let (g, elseHead) := addNextNew g endIdx (some "_else") none
      pure (addEdge g elseHead ifEnd)
  pure (g, some ifEnd)

/-- The `tf.CaseStatement` arm of `_get_program_graph` as a standalone
function; definitionally equal to the corresponding arm of `buildStmt`. -/
def caseArmBuild (g : Graph) (stmt : Stmt) (cases : List (String × List Stmt))
    (elseOpt : Option (List Stmt)) (endIdx : Nat)
    (exitDest contDest : Option Nat) : Except String (Graph × Option Nat) := do
  let (g, caseNode) := addNextNew g endIdx (some "CASE") (some stmt)
  let (g, caseEnd) := newNode g (some "case_end") none
  let g ← buildCases g stmt cases caseNode caseEnd exitDest contDest
  let g ← match elseOpt with
    | some elseStmts => do
      let (g, elseHead) := addNextNew g caseNode (some "else") none
      let (g, eEnd) ← buildStmts g elseStmts elseHead exitDest contDest
      pure (match eEnd with | some e => addEdge g e caseEnd | none => g)
    | none => pure g
  pure (g, some caseEnd)

/-- The recurring join step `if end is not None: end.add_next(join_node)`:
link an optional branch end to its join node. -/
def joinTo (g : Graph) (x : Option Nat) (tgt : Nat) : Graph :=
  match x with | some v => addEdge g v tgt | none => g

/-- The arena right after the loop arm has allocated the head (`loop`, at
index `size`), body-entry (`loop_start`, at `size+1`) and loop-exit
(`loop_end`, at `size+2`) nodes and linked `e → head → body entry`, before
the loop body is built; this is `addNextNew`/`newNode` unfolded, with the
fresh indices written arithmetically. -/
def loopPreState (g : Graph) (stmt : Stmt) (e : Nat) : Graph :=
  Graph.mk ((addEdge (Graph.mk ((addEdge (Graph.mk (g.nodes.push
    (mkNode (some "loop") (some stmt)))) e g.nodes.size).nodes.push
    (mkNode (some "loop_start") none))) g.nodes.size (g.nodes.size + 1)).nodes.push
    (mkNode (some "loop_end") none))

/-- The closing steps of the loop arm applied to the post-body arena `gj`:
allocate the `_else` node for the implicit condition-false branch, link it
after the loop head and then to the loop-exit node. -/
def loopPostState (gj : Graph) (head loopEnd : Nat) : Graph :=
  addEdge (addEdge (Graph.mk (gj.nodes.push (mkNode (some "_else") none)))
    head gj.nodes.size) gj.nodes.size loopEnd

/-- The arena right after the if arm has allocated the `if_end` join node
(index `size`) and the then-branch head (`if`, at `size+1`) linked after
`e`, before the then branch is built. -/
def ifPreStateN (g : Graph) (stmt : Stmt) (e : Nat) : Graph :=
  addEdge (Graph.mk ((g.nodes.push (mkNode (some "if_end") none)).push
    (mkNode (some "if") (some stmt)))) e (g.nodes.size + 1)

/-- The arena right after the case arm has allocated the `CASE` node
(index `size`, linked after `e`) and the `case_end` join node (`size+1`),
before the arms are built. -/
def casePreStateN (g : Graph) (stmt : Stmt) (e : Nat) : Graph :=
  Graph.mk ((addEdge (Graph.mk (g.nodes.push (mkNode (some "CASE") (some stmt))))
    e g.nodes.size).nodes.push (mkNode (some "case_end") none))

/-- The implicit-else steps of the if arm: allocate an empty `_else` node
after `e` and link it to the join node `tgt`. -/
def elseChain (g : Graph) (e tgt : Nat) : Graph :=
  addEdge (addNextNew g e (some "_else") none).1 (addNextNew g e (some "_else") none).2 tgt

/-- The arena right after an explicit `else` head has been allocated after
node `a`. -/
def elsePreState (g : Graph) (a : Nat) : Graph :=
  (addNextNew g a (some "else") none).1

/-- The construction-step invariant of `buildStmts` on a statement list:
every successful build only appends nodes, preserves the `label`/`stat` of
pre-existing nodes, only adds successor edges, aims every new edge at a
fresh node or at the exit/continue destination, and returns an end that is
either the incoming end or a fresh node. -/
def StmtsStepP (stmts : List Stmt) : Prop :=
  ∀ (g : Graph) (e : Nat) (xD cD : Option Nat) (g2 : Graph) (e2 : Option Nat),
    buildStmts g stmts e xD cD = .ok (g2, e2) →
    BuildStep g g2 (fun t => xD = some t ∨ cD = some t) ∧
    ∀ v, e2 = some v → v = e ∨ (g.nodes.size ≤ v ∧ v < g2.nodes.size)

/-- The construction-step invariant of `buildStmt` on one statement
(same shape as `StmtsStepP`). -/
def StmtStepP (stmt : Stmt) : Prop :=
  ∀ (g : Graph) (e : Nat) (xD cD : Option Nat) (g2 : Graph) (e2 : Option Nat),
    buildStmt g stmt e xD cD = .ok (g2, e2) →
    BuildStep g g2 (fun t => xD = some t ∨ cD = some t) ∧
    ∀ v, e2 = some v → v = e ∨ (g.nodes.size ≤ v ∧ v < g2.nodes.size)

/-- The construction-step invariant of the elsif loop: as `StmtsStepP`,
except that new edges may additionally aim at the `if_end` join node. -/
def ElifsStepP (elifs : List (Expr × List Stmt)) : Prop :=
  ∀ (g : Graph) (e ifEnd : Nat) (xD cD : Option Nat) (g2 : Graph),
    buildElifs g elifs e ifEnd xD cD = .ok g2 →
    BuildStep g g2 (fun t => xD = some t ∨ cD = some t ∨ t = ifEnd)

/-- The construction-step invariant of the case-arm loop: as `StmtsStepP`,
except that new edges may additionally aim at the `case_end` join node. -/
def CasesStepP (cs : List (String × List Stmt)) : Prop :=
  ∀ (g : Graph) (o : Stmt) (caseNode caseEnd : Nat) (xD cD : Option Nat) (g2 : Graph),
    buildCases g o cs caseNode caseEnd xD cD = .ok g2 →
    BuildStep g g2 (fun t => xD = some t ∨ cD = some t ∨ t = caseEnd)

/-- The fresh one-node arena a routine build starts from (the shared
start/end node of `get_program_graph`). -/
def c1g0 : Graph := { nodes := #[mkNode none none] }

/-- The loop statement of the loop-shape witness:
`WHILE cond DO x := 1 END_WHILE`. -/
def c1stmt : Stmt := Stmt.whileS (Expr.evar "cond") [Stmt.assign ["x"] (Expr.lit 1)]

/-- The arena `buildStmt` produces for the witness loop appended to the
fresh arena. -/
def c1graph : Graph := graphOf (buildStmt c1g0 c1stmt 0 none none)

/-- The number of pool indices not yet visited — the decreasing measure of
the worklist loops (each iteration visits one unvisited pool index). -/
def unvisitedCount (pool visited : List Nat) : Nat :=
  (pool.toFinset.filter (fun k => k ∉ visited)).card

/-- A one-assignment routine used by the termination and
unreachable-target witnesses. -/
def c10prog : List Stmt := [Stmt.assign ["x"] (Expr.lit 1)]

/-- The graph `get_program_graph` builds for `c10prog`: the single entry node
holding the assignment. -/
def c10graph : Graph :=
  { nodes := #[{ label := none, stat := none, prev := [], next := [],
                 statements := [Stmt.assign ["x"] (Expr.lit 1)] }] }

/-- The spec's testable routine
`IF cond THEN result := 1; RETURN; END_IF result := 2;`. -/
def c6prog : List Stmt :=
  [Stmt.ifS (Expr.evar "cond") [Stmt.assign ["result"] (Expr.lit 1), Stmt.returnS] [] none,
   Stmt.assign ["result"] (Expr.lit 2)]

end Program

end Catscan

namespace Catscan

open Tc3

theorem dominanceLoop_comm (fams : List (List String)) (t1 t2 : String) :
    dominanceLoop fams t1 t2 = dominanceLoop fams t2 t1 := by
  induction fams with
  | nil => rfl
  | cons s rest ih =>
    simp only [dominanceLoop]
    by_cases h1 : t1 ∈ s <;> by_cases h2 : t2 ∈ s <;>
      simp [h1, h2, Nat.max_comm, ih]

theorem dominanceLoop_isSome_of_mem (fams : List (List String)) (t1 t2 : String)
    (fam : List String) (hfam : fam ∈ fams) (hmem : t1 ∈ fam ∨ t2 ∈ fam) :
    dominanceLoop fams t1 t2 ≠ none := by
  induction fams with
  | nil => cases hfam
  | cons s rest ih =>
    simp only [dominanceLoop]
    by_cases h1 : t1 ∈ s <;> by_cases h2 : t2 ∈ s <;> simp [h1, h2]
    rcases List.mem_cons.mp hfam with heq | htail
    · subst heq
      rcases hmem with hm | hm
      · exact absurd hm h1
      · exact absurd hm h2
    · exact ih htail

/-- C5 — counterexample.  `common_arithmetic_type` is NOT commutative when
neither type belongs to a ranked family: the bit-string types `WORD` and
`BYTE` are in no ranked family, so the fallthrough `return typ1 or typ2`
returns the first argument in both orders. -/
theorem c5_commonArithmeticType_not_commutative :
    common_arithmetic_type (some "WORD") (some "BYTE") = some "WORD" ∧
    common_arithmetic_type (some "BYTE") (some "WORD") = some "BYTE" ∧
    common_arithmetic_type (some "WORD") (some "BYTE") ≠
      common_arithmetic_type (some "BYTE") (some "WORD") := by
  refine ⟨by decide, by decide, by decide⟩

/-- C5 — amended.  `commonArithmeticType(t1, t2) = commonArithmeticType(t2, t1)`
holds whenever either argument is null, the arguments are equal, or at least
one of the two types belongs to a ranked family (time-related, float,
unsigned, signed); for two distinct types neither of which is ranked, the
function falls through and returns its first (truthy) argument, which breaks
commutativity. -/
theorem c5_commonArithmeticType_comm_amended (t1 t2 : Option String)
    (h : t1 = none ∨ t2 = none ∨ t1 = t2 ∨
      (∃ fam, fam ∈ dominant_types ∧
        ((∃ s, t1 = some s ∧ s ∈ fam) ∨ (∃ s, t2 = some s ∧ s ∈ fam)))) :
    common_arithmetic_type t1 t2 = common_arithmetic_type t2 t1 := by
  match t1, t2 with
  | none, none => rfl
  | none, some s2 => rfl
  | some s1, none => rfl
  | some s1, some s2 =>
    by_cases heq : s1 = s2
    · subst heq; rfl
    · have hne : ¬(s2 = s1) := fun hc => heq hc.symm
      rcases h with hc | hc | hc | hc
      · exact absurd hc (by simp)
      · exact absurd hc (by simp)
      · exact absurd (Option.some.inj hc) heq
      · rcases hc with ⟨fam, hfam, hmem⟩
        have hmem2 : s1 ∈ fam ∨ s2 ∈ fam := by
          rcases hmem with ⟨s, hs, hsf⟩ | ⟨s, hs, hsf⟩
          · exact Or.inl (by rwa [← Option.some.inj hs] at hsf)
          · exact Or.inr (by rwa [← Option.some.inj hs] at hsf)
        have hsome := dominanceLoop_isSome_of_mem dominant_types s1 s2 fam hfam hmem2
        have hcomm := dominanceLoop_comm dominant_types s1 s2
        simp only [common_arithmetic_type, if_neg heq, if_neg hne]
        rw [← hcomm]
        cases hd : dominanceLoop dominant_types s1 s2 with
        | none => exact absurd hd hsome
        | some r => rfl

/-- C5 — witness for the amended theorem at the ranked pair `INT` / `LREAL`. -/
theorem c5_commonArithmeticType_comm_amended_witness :
    common_arithmetic_type (some "INT") (some "LREAL") =
      common_arithmetic_type (some "LREAL") (some "INT") :=
  c5_commonArithmeticType_comm_amended (some "INT") (some "LREAL")
    (Or.inr (Or.inr (Or.inr
      ⟨BUILTIN_SIGNED_INTEGERS, by decide, Or.inl ⟨"INT", rfl, by decide⟩⟩)))

open Lint

/-- C2 — counterexample.  A rule that is enabled at severity `INFO` while the
run's minimum verbosity is `WARNING` (the default) is skipped entirely by
`LintCheck.__call__`: the rule function is never executed and nothing is
printed, even though the rule would produce a finding that carries no noqa
marker — contradicting "still computes its findings, prints every
non-suppressed finding ... and only excludes those findings from the
returned result set". -/
theorem c2_level_excluded_rule_skipped_counterexample :
    lintCheckCall
      { level := CheckLevel.WARNING,
        checks := [("TST001", { enabled := true, level := CheckLevel.INFO })],
        builtin_symbols := [] }
      "TST001" [{ errorLine := none }] =
    { computed := false, printed := [], yielded := [] } := by decide

/-- C2 — amended.  For every rule that is enabled but whose configured
severity is below the run's minimum verbosity level (`check_level >
settings.level`), dispatch skips the rule entirely: its findings are not
computed, nothing is printed, and nothing is returned (source comment:
`# disabled by level`). -/
theorem c2_level_excluded_rule_skipped_amended (settings : Settings) (code : String)
    (findings : List Finding) (cs : CheckSettings)
    (hfound : dictGet settings.checks code = some cs)
    (hen : cs.enabled = true)
    (hlvl : cs.level.toNat > settings.level.toNat) :
    lintCheckCall settings code findings =
      { computed := false, printed := [], yielded := [] } := by
  simp only [lintCheckCall, hfound, hen, if_true]
  simp [hlvl]

/-- C2 — witness for the amended theorem at the counterexample input. -/
theorem c2_level_excluded_rule_skipped_amended_witness :
    lintCheckCall
      { level := CheckLevel.WARNING,
        checks := [("TST001", { enabled := true, level := CheckLevel.INFO })],
        builtin_symbols := [] }
      "TST001" [{ errorLine := none }] =
    { computed := false, printed := [], yielded := [] } :=
  c2_level_excluded_rule_skipped_amended
    { level := CheckLevel.WARNING,
      checks := [("TST001", { enabled := true, level := CheckLevel.INFO })],
      builtin_symbols := [] }
    "TST001" [{ errorLine := none }]
    { enabled := true, level := CheckLevel.INFO }
    (by decide) (by decide) (by decide)

/-- C3 — the code contradicts the claimed suppression contract.  On the line
`TST001x := y + 1; // noqa: ZZZ001` the noqa marker lists only `ZZZ001`, yet a
finding for rule code `TST001` is suppressed (neither printed nor returned):
`_is_noqa` tests `code in noqa.string`, i.e. substring containment in the
WHOLE line instead of membership in the captured code list, and `TST001`
occurs in the line as part of the identifier `TST001x`. -/
theorem c3_noqa_suppresses_unlisted_code :
    noqaListedCodes ("TST001x := y + 1; // noqa: ZZZ001").data = some ["ZZZ001"] ∧
    is_noqa "TST001x := y + 1; // noqa: ZZZ001" "TST001" = true ∧
    lintCheckCall { level := CheckLevel.WARNING, checks := [], builtin_symbols := [] } "TST001"
      [{ errorLine := some "TST001x := y + 1; // noqa: ZZZ001" }] =
    { computed := true, printed := [], yielded := [] } := by decide

open Ctx

/-- C4 — the code violates the restore-on-every-exit-path requirement.  When
the body of a `with ctx.function_block(fb)` / `with ctx.method(m)` block
raises, the `@contextmanager` generators of `Context.function_block` and
`Context.method` (which have no `try`/`finally` around their `yield`) never
run their post-`yield` cleanup: `_current_fb` stays set, `_current_method`
stays set and the pushed variable layer stays on the stack.  The normal exit
path does restore, as the second conjunct shows. -/
theorem c4_scope_state_not_restored_on_exception :
    ((function_block_scope c4_ctx0 c4_fb
        (fun ctx => (ctx, (Except.error "ValueError" : Except String Unit)))).1._current_fb
      = some c4_fb) ∧
    ((function_block_scope c4_ctx0 c4_fb
        (fun ctx => (ctx, (Except.ok () : Except String Unit)))).1._current_fb = none) ∧
    ((method_scope c4_ctx0 c4_meth
        (fun ctx => (ctx, (Except.error "ValueError" : Except String Unit)))).1._current_method
      = some c4_meth) ∧
    ((method_scope c4_ctx0 c4_meth
        (fun ctx => (ctx, (Except.error "ValueError" : Except String Unit)))).1.var_stack.length
      = 2) ∧
    c4_ctx0.var_stack.length = 1 ∧ c4_ctx0._current_fb = none := by decide

theorem streq_refl (s : String) : streq s s = true := by simp [streq]

theorem get_ci_fixed_none {α : Type} (l : List (String × α)) (k : String)
    (h : ∀ p ∈ l, streq p.1 k = false) :
    get_case_insensitive_with_fixed_key l k = (none, none) := by
  have hd : l.find? (fun p => decide (p.1 = k)) = none := by
    rw [List.find?_eq_none]
    intro p hp
    simp only [decide_eq_true_eq]
    intro hc
    have hh := h p hp
    rw [hc, streq_refl] at hh
    exact Bool.noConfusion hh
  have hf : l.find? (fun p => streq p.1 k) = none := by
    rw [List.find?_eq_none]
    intro p hp
    simp [h p hp]
  simp [get_case_insensitive_with_fixed_key, dictGet, hd, hf]

/-- C7 — member resolution flattens the `extends` chain.  For every pair of
function blocks `b EXTENDS a` where `a` declares a field `f : BOOL` that `b`
never redeclares, resolving `f` with `b` active succeeds with type `BOOL`.
The hypotheses say only that `f` does not collide with an earlier stage of
the resolution order (`THIS`/`SUPER`, the type names `a`/`b`, builtin
conversions and builtin functions — all case-insensitive). -/
theorem c7_inherited_field_resolves (a b f : String)
    (hthis : streq f "THIS" = false) (hthis2 : streq f "THIS^" = false)
    (hsup : streq f "SUPER" = false) (hsup2 : streq f "SUPER^" = false)
    (hfa : streq a f = false) (hfb : streq b f = false)
    (hconv : ∀ p ∈ Tc3.BUILTIN_TYPE_CONVERSIONS, streq p.1 f = false)
    (hfns : ∀ p ∈ Tc3.BUILTIN_FUNCTIONS, streq p.1 f = false) :
    get_var_type (c7_ctx a b f) f false = .ok (some (VarType.typ "BOOL")) := by
  have hconv_none := get_ci_fixed_none Tc3.BUILTIN_TYPE_CONVERSIONS f hconv
  have hfns_none := get_ci_fixed_none Tc3.BUILTIN_FUNCTIONS f hfns
  have h1 : ["THIS", "THIS^"].find? (fun th => _streq false f th) = none := by
    simp [List.find?, _streq, hthis, hthis2]
  have h2 : ["SUPER", "SUPER^"].find? (fun sp => _streq false f sp) = none := by
    simp [List.find?, _streq, hsup, hsup2]
  have h5 : get_case_insensitive_with_fixed_key
      [(a, c7_fbA a f), (b, c7_fbB a b)] f = (none, none) := by
    apply get_ci_fixed_none
    intro p hp
    rcases List.mem_cons.mp hp with heq | htail
    · rw [heq]; exact hfa
    · rcases List.mem_cons.mp htail with heq2 | hnil
      · rw [heq2]; exact hfb
      · cases hnil
  have h9 : _get_fb_decl_types [(a, c7_fbA a f), (b, c7_fbB a b)] (c7_fbB a b) =
      [(f, VarType.typ "BOOL")] := by
    simp [_get_fb_decl_types, squash_base_extends, c7_fbA, c7_fbB,
      get_case_insensitive, get_case_insensitive_with_fixed_key, dictGet,
      dictUnion, List.find?]
  have h10 : get_case_insensitive_with_fixed_key [(f, VarType.typ "BOOL")] f =
      (some f, some (VarType.typ "BOOL")) := by
    simp [get_case_insensitive_with_fixed_key, dictGet, List.find?]
  have hnil1 : get_case_insensitive_with_fixed_key ([] : List (String × String)) f =
      (none, none) := rfl
  have hnil2 : get_case_insensitive_with_fixed_key ([] : List (String × Unit)) f =
      (none, none) := rfl
  simp only [get_var_type, _get_var_type, c7_ctx, c4_settings, _dict_getter,
    Bool.false_eq_true, if_false, h1, h2, h5, hconv_none, hfns_none, h9, h10,
    hnil1, hnil2]
  rfl

set_option maxRecDepth 40000 in
/-- C7 — witness at concrete block names and field name. -/
theorem c7_inherited_field_resolves_witness :
    get_var_type (c7_ctx "FB_A" "FB_B" "f") "f" false = .ok (some (VarType.typ "BOOL")) :=
  c7_inherited_field_resolves "FB_A" "FB_B" "f"
    (by decide) (by decide) (by decide) (by decide) (by decide) (by decide)
    (by decide) (by decide)

open Program

/-- C6 — the forward all-paths query on
`IF cond THEN result := 1; RETURN; END_IF result := 2;` with the predicate
"`result` is assigned" returns no failing path: the implicit empty else arm
joins the shared post-node, so the assignment after the `IF` lies on the else
path; `has_assignment` answers true. -/
theorem c6_implicit_else_no_false_positive :
    predicate_on_all_code_paths c6prog (fun s => is_assignment_for "result" s true)
      = .ok (some none) ∧
    has_assignment c6prog "result" = .ok true :=
  ⟨rfl, rfl⟩

/-- C8 — counterexample.  A routine containing an EXIT with no enclosing loop
does NOT always raise: in `RETURN; EXIT;` the `EXIT` sits in unreachable code
(the end node is already `None`), the recursive call returns immediately
without inspecting it, and construction succeeds. -/
theorem c8_unreachable_exit_does_not_raise :
    buildOk (get_program_graph [Stmt.returnS, Stmt.exitS]) = true := rfl

/-- C8 — amended.  Building the flow graph raises the fatal construction
error exactly when construction processes a *reachable* `EXIT` (resp.
`CONTINUE`) with no enclosing loop.  Every reachable such statement is
processed by a `buildStmt` call whose exit (resp. continue) destination is
absent, and that call aborts with the error from EVERY construction state —
shown universally, and lifted to whole routines with the statement at entry
position, after a straight-line assignment, and heading an IF branch, each
for every surrounding routine.  (An EXIT/CONTINUE in unreachable code is
never processed and construction returns a graph — the counterexample.) -/
theorem c8_reachable_exit_outside_loop_raises :
    (∀ (g : Graph) (e : Nat) (contD : Option Nat),
      buildStmt g Stmt.exitS e none contD = .error "EXIT used outside of loop") ∧
    (∀ (g : Graph) (e : Nat) (exitD : Option Nat),
      buildStmt g Stmt.continueS e exitD none = .error "CONTINUE used outside of loop") ∧
    (∀ rest : List Stmt,
      get_program_graph (Stmt.exitS :: rest) = .error "EXIT used outside of loop" ∧
      get_program_graph (Stmt.continueS :: rest)
        = .error "CONTINUE used outside of loop") ∧
    (∀ (vs : List String) (ex : Expr) (rest : List Stmt),
      get_program_graph (Stmt.assign vs ex :: Stmt.exitS :: rest)
        = .error "EXIT used outside of loop" ∧
      get_program_graph (Stmt.assign vs ex :: Stmt.continueS :: rest)
        = .error "CONTINUE used outside of loop") ∧
    (∀ (c : Expr) (more : List Stmt) (elifs : List (Expr × List Stmt))
        (els : Option (List Stmt)) (rest : List Stmt),
      get_program_graph (Stmt.ifS c (Stmt.exitS :: more) elifs els :: rest)
        = .error "EXIT used outside of loop" ∧
      get_program_graph (Stmt.ifS c (Stmt.continueS :: more) elifs els :: rest)
        = .error "CONTINUE used outside of loop") :=
  ⟨fun _ _ _ => rfl, fun _ _ _ => rfl, fun _ => ⟨rfl, rfl⟩, fun _ _ _ => ⟨rfl, rfl⟩,
   fun _ _ _ _ _ => ⟨rfl, rfl⟩⟩

/-- C1 — counterexample.  For the routine `WHILE cond DO x := 1 END_WHILE`
the loop head is node 1 (it owns the loop statement), the body entry = body
end is node 2, and the loop-exit is node 3: the reachable body end's only
successor is the loop-EXIT node 3 — there is no successor edge from the body
end back to the loop head, contradicting the claim. -/
theorem c1_no_back_edge_counterexample :
    ((graphOf (get_program_graph c1prog)).nodes.getD 1 (mkNode none none)).stat
      = some (Stmt.whileS (Expr.evar "cond") [Stmt.assign ["x"] (Expr.lit 1)]) ∧
    ((graphOf (get_program_graph c1prog)).nodes.getD 1 (mkNode none none)).next = [2, 4] ∧
    ((graphOf (get_program_graph c1prog)).nodes.getD 2 (mkNode none none)).label
      = some "loop_start" ∧
    ((graphOf (get_program_graph c1prog)).nodes.getD 2 (mkNode none none)).statements
      = [Stmt.assign ["x"] (Expr.lit 1)] ∧
    ((graphOf (get_program_graph c1prog)).nodes.getD 3 (mkNode none none)).label
      = some "loop_end" ∧
    ((graphOf (get_program_graph c1prog)).nodes.getD 2 (mkNode none none)).next = [3] ∧
    ¬ 1 ∈ ((graphOf (get_program_graph c1prog)).nodes.getD 2 (mkNode none none)).next :=
  ⟨rfl, rfl, rfl, rfl, rfl, rfl, by decide⟩

theorem bind_ok {α β : Type} {x : Except String α} {f : α → Except String β} {r : β}
    (h : x >>= f = Except.ok r) : ∃ a, x = Except.ok a ∧ f a = Except.ok r := by
  cases x with
  | error s => exact absurd h (by simp [Bind.bind, Except.bind])
  | ok a => exact ⟨a, rfl, h⟩

theorem pure_ok {α : Type} {a b : α} (h : (pure a : Except String α) = .ok b) : a = b :=
  Except.ok.inj h

theorem size_addEdge (g : Graph) (a b : Nat) : (addEdge g a b).nodes.size = g.nodes.size := by
  simp [addEdge]

theorem buildStmt_whileS_def (g : Graph) (c : Expr) (body : List Stmt) (e : Nat)
    (xD cD : Option Nat) :
    buildStmt g (.whileS c body) e xD cD
      = loopArmBuild g (.whileS c body) body e xD cD := rfl

theorem buildStmt_repeatS_def (g : Graph) (body : List Stmt) (c : Expr) (e : Nat)
    (xD cD : Option Nat) :
    buildStmt g (.repeatS body c) e xD cD
      = loopArmBuild g (.repeatS body c) body e xD cD := rfl

theorem buildStmt_forS_def (g : Graph) (ctl : String) (f t : Expr) (body : List Stmt)
    (e : Nat) (xD cD : Option Nat) :
    buildStmt g (.forS ctl f t body) e xD cD
      = loopArmBuild g (.forS ctl f t body) body e xD cD := rfl

theorem buildStmt_ifS_none_def (g : Graph) (c : Expr) (ts : List Stmt)
    (el : List (Expr × List Stmt)) (e : Nat) (xD cD : Option Nat) :
    buildStmt g (.ifS c ts el none) e xD cD
      = ifArmBuild g (.ifS c ts el none) ts el none e xD cD := rfl

theorem buildStmt_ifS_some_def (g : Graph) (c : Expr) (ts els : List Stmt)
    (el : List (Expr × List Stmt)) (e : Nat) (xD cD : Option Nat) :
    buildStmt g (.ifS c ts el (some els)) e xD cD
      = ifArmBuild g (.ifS c ts el (some els)) ts el (some els) e xD cD := rfl

theorem buildStmt_caseS_none_def (g : Graph) (ex : Expr) (cs : List (String × List Stmt))
    (e : Nat) (xD cD : Option Nat) :
    buildStmt g (.caseS ex cs none) e xD cD
      = caseArmBuild g (.caseS ex cs none) cs none e xD cD := rfl

theorem buildStmt_caseS_some_def (g : Graph) (ex : Expr) (cs : List (String × List Stmt))
    (els : List Stmt) (e : Nat) (xD cD : Option Nat) :
    buildStmt g (.caseS ex cs (some els)) e xD cD
      = caseArmBuild g (.caseS ex cs (some els)) cs (some els) e xD cD := rfl

set_option maxHeartbeats 1000000 in
theorem loopArmBuild_ok (g : Graph) (stmt : Stmt) (body : List Stmt) (e : Nat)
    (xD cD : Option Nat) (g2 : Graph) (e2 : Option Nat)
    (h : loopArmBuild g stmt body e xD cD = .ok (g2, e2)) :
    ∃ g1 bEnd,
      buildStmts (loopPreState g stmt e) body (g.nodes.size + 1)
          (some (g.nodes.size + 2)) (some (g.nodes.size + 1)) = .ok (g1, bEnd) ∧
      e2 = some (g.nodes.size + 2) ∧
      g2 = loopPostState (joinTo g1 bEnd (g.nodes.size + 2)) g.nodes.size
        (g.nodes.size + 2) := by
  unfold loopArmBuild at h
  obtain ⟨⟨g1, bEnd⟩, h1, hA⟩ := bind_ok h
  simp only [size_addEdge, Array.size_push] at h1 hA
  refine ⟨g1, bEnd, h1, (Prod.mk.inj (pure_ok hA)).2.symm, ?_⟩
  cases bEnd with
  | none => exact ((Prod.mk.inj (pure_ok hA)).1).symm
  | some be => exact ((Prod.mk.inj (pure_ok hA)).1).symm

set_option maxHeartbeats 1000000 in
theorem ifArmBuild_none_ok (g : Graph) (stmt : Stmt) (ts : List Stmt)
    (el : List (Expr × List Stmt)) (e : Nat)
    (xD cD : Option Nat) (g2 : Graph) (e2 : Option Nat)
    (h : ifArmBuild g stmt ts el none e xD cD = .ok (g2, e2)) :
    ∃ gt tEnd g3,
      buildStmts (ifPreStateN g stmt e) ts (g.nodes.size + 1) xD cD = .ok (gt, tEnd) ∧
      buildElifs (joinTo gt tEnd g.nodes.size) el e g.nodes.size xD cD = .ok g3 ∧
      e2 = some g.nodes.size ∧
      g2 = elseChain g3 e g.nodes.size := by
  unfold ifArmBuild at h
  obtain ⟨⟨gt, tEnd⟩, h1, hA⟩ := bind_ok h
  simp only [size_addEdge, Array.size_push] at h1 hA
  obtain ⟨g3, h2, hB⟩ := bind_ok hA
  obtain ⟨g4, h3, hC⟩ := bind_ok hB
  cases tEnd with
  | none =>
    refine ⟨gt, none, g3, h1, h2, (Prod.mk.inj (pure_ok hC)).2.symm, ?_⟩
    rw [← (Prod.mk.inj (pure_ok hC)).1, ← pure_ok h3]
    rfl
  | some te =>
    refine ⟨gt, some te, g3, h1, h2, (Prod.mk.inj (pure_ok hC)).2.symm, ?_⟩
    rw [← (Prod.mk.inj (pure_ok hC)).1, ← pure_ok h3]
    rfl

set_option maxHeartbeats 1000000 in
theorem ifArmBuild_some_ok (g : Graph) (stmt : Stmt) (ts els : List Stmt)
    (el : List (Expr × List Stmt)) (e : Nat)
    (xD cD : Option Nat) (g2 : Graph) (e2 : Option Nat)
    (h : ifArmBuild g stmt ts el (some els) e xD cD = .ok (g2, e2)) :
    ∃ gt tEnd g3 gel eEnd,
      buildStmts (ifPreStateN g stmt e) ts (g.nodes.size + 1) xD cD = .ok (gt, tEnd) ∧
      buildElifs (joinTo gt tEnd g.nodes.size) el e g.nodes.size xD cD = .ok g3 ∧
      buildStmts (elsePreState g3 e) els g3.nodes.size xD cD = .ok (gel, eEnd) ∧
      e2 = some g.nodes.size ∧
      g2 = joinTo gel eEnd g.nodes.size := by
  unfold ifArmBuild at h
  obtain ⟨⟨gt, tEnd⟩, h1, hA⟩ := bind_ok h
  simp only [size_addEdge, Array.size_push] at h1 hA
  obtain ⟨g3, h2, hB⟩ := bind_ok hA
  obtain ⟨⟨gel, eEnd⟩, h4, hC⟩ := bind_ok hB
  cases tEnd with
  | none =>
    refine ⟨gt, none, g3, gel, eEnd, h1, h2, h4, (Prod.mk.inj (pure_ok hC)).2.symm, ?_⟩
    rw [← (Prod.mk.inj (pure_ok hC)).1]
    cases eEnd <;> rfl
  | some te =>
    refine ⟨gt, some te, g3, gel, eEnd, h1, h2, h4, (Prod.mk.inj (pure_ok hC)).2.symm, ?_⟩
    rw [← (Prod.mk.inj (pure_ok hC)).1]
    cases eEnd <;> rfl

set_option maxHeartbeats 1000000 in
theorem caseArmBuild_none_ok (g : Graph) (stmt : Stmt) (cs : List (String × List Stmt))
    (e : Nat) (xD cD : Option Nat) (g2 : Graph) (e2 : Option Nat)
    (h : caseArmBuild g stmt cs none e xD cD = .ok (g2, e2)) :
    ∃ g3,
      buildCases (casePreStateN g stmt e) stmt cs g.nodes.size (g.nodes.size + 1) xD cD
        = .ok g3 ∧
      e2 = some (g.nodes.size + 1) ∧
      g2 = g3 := by
  unfold caseArmBuild at h
  obtain ⟨g3, h1, hA⟩ := bind_ok h
  simp only [size_addEdge, Array.size_push] at h1 hA
  obtain ⟨g4, h3, hC⟩ := bind_ok hA
  exact ⟨g3, h1, (Prod.mk.inj (pure_ok hC)).2.symm,
    ((Prod.mk.inj (pure_ok hC)).1.symm.trans (pure_ok h3).symm)⟩

set_option maxHeartbeats 1000000 in
theorem caseArmBuild_some_ok (g : Graph) (stmt : Stmt) (cs : List (String × List Stmt))
    (els : List Stmt) (e : Nat) (xD cD : Option Nat) (g2 : Graph) (e2 : Option Nat)
    (h : caseArmBuild g stmt cs (some els) e xD cD = .ok (g2, e2)) :
    ∃ g3 gel eEnd,
      buildCases (casePreStateN g stmt e) stmt cs g.nodes.size (g.nodes.size + 1) xD cD
        = .ok g3 ∧
      buildStmts (elsePreState g3 g.nodes.size) els g3.nodes.size xD cD = .ok (gel, eEnd) ∧
      e2 = some (g.nodes.size + 1) ∧
      g2 = joinTo gel eEnd (g.nodes.size + 1) := by
  unfold caseArmBuild at h
  obtain ⟨g3, h1, hA⟩ := bind_ok h
  simp only [size_addEdge, Array.size_push] at h1 hA
  obtain ⟨⟨gel, eEnd⟩, h4, hC⟩ := bind_ok hA
  refine ⟨g3, gel, eEnd, h1, h4, (Prod.mk.inj (pure_ok hC)).2.symm, ?_⟩
  rw [← (Prod.mk.inj (pure_ok hC)).1]
  cases eEnd <;> rfl

theorem buildStmts_cons_def (g : Graph) (s : Stmt) (rest : List Stmt) (e : Nat)
    (xD cD : Option Nat) :
    buildStmts g (s :: rest) e xD cD = (do
      let (g2, eOpt) ← buildStmt g s e xD cD
      match eOpt with
      | none => .ok (g2, none)
      | some e2 => buildStmts g2 rest e2 xD cD) := rfl

theorem buildElifs_cons_def (g : Graph) (c : Expr) (ss : List Stmt)
    (rest : List (Expr × List Stmt)) (e ifEnd : Nat) (xD cD : Option Nat) :
    buildElifs g ((c, ss) :: rest) e ifEnd xD cD = (do
      let (g, elifHead) := addNextNew g e (some "elsif") none
      let (g2, eEnd) ← buildStmts g ss elifHead xD cD
      let g3 := match eEnd with | some e2 => addEdge g2 e2 ifEnd | none => g2
      buildElifs g3 rest e ifEnd xD cD) := rfl

theorem buildCases_cons_def (g : Graph) (o : Stmt) (lbl : String) (ss : List Stmt)
    (rest : List (String × List Stmt)) (caseNode caseEnd : Nat) (xD cD : Option Nat) :
    buildCases g o ((lbl, ss) :: rest) caseNode caseEnd xD cD = (do
      let (g, armHead) := addNextNew g caseNode (some lbl) (some o)
      let (g2, aEnd) ← buildStmts g ss armHead xD cD
      let g3 := match aEnd with | some e2 => addEdge g2 e2 caseEnd | none => g2
      buildCases g3 o rest caseNode caseEnd xD cD) := rfl

theorem size_appendStmt (g : Graph) (a : Nat) (s : Stmt) :
    (appendStmt g a s).nodes.size = g.nodes.size := by
  simp [appendStmt]

theorem mem_listInsert_self (l : List Nat) (x : Nat) : x ∈ listInsert l x := by
  unfold listInsert
  split
  · assumption
  · simp

theorem mem_listInsert_of_mem {l : List Nat} {y : Nat} (x : Nat) (h : y ∈ l) :
    y ∈ listInsert l x := by
  unfold listInsert
  split
  · exact h
  · simp [h]

theorem mem_listInsert_inv {l : List Nat} {x y : Nat} (h : y ∈ listInsert l x) :
    y ∈ l ∨ y = x := by
  unfold listInsert at h
  split at h
  · exact Or.inl h
  · rcases List.mem_append.mp h with h' | h'
    · exact Or.inl h'
    · exact Or.inr (List.mem_singleton.mp h')

theorem nodeAt_of_le (g : Graph) (i : Nat) (h : g.nodes.size ≤ i) :
    nodeAt g i = mkNode none none := by
  unfold nodeAt Array.getD
  split
  · omega
  · rfl

theorem nodeAt_push (arr : Array PNode) (nd : PNode) (i : Nat) :
    nodeAt (Graph.mk (arr.push nd)) i =
      if i < arr.size then nodeAt (Graph.mk arr) i
      else if i = arr.size then nd else mkNode none none := by
  unfold nodeAt Array.getD
  rcases Nat.lt_trichotomy i arr.size with h | h | h
  · rw [if_pos h, dif_pos (by simp; omega), dif_pos h]
    exact Array.getElem_push_lt _ _ _ h
  · subst h
    rw [if_neg (Nat.lt_irrefl _), if_pos rfl, dif_pos (by simp)]
    exact Array.getElem_push_eq _ _
  · rw [if_neg (by omega), if_neg (by omega), dif_neg (by simp; omega)]

theorem nodeAt_modify (arr : Array PNode) (a i : Nat) (f : PNode → PNode) :
    nodeAt (Graph.mk (arr.modify a f)) i =
      if a = i ∧ i < arr.size then f (nodeAt (Graph.mk arr) i)
      else nodeAt (Graph.mk arr) i := by
  unfold nodeAt Array.getD
  by_cases h : i < arr.size
  · by_cases ha : a = i
    · subst ha
      rw [if_pos ⟨rfl, h⟩, dif_pos (by simpa using h), dif_pos h]
      exact Array.getElem_modify_self _ _
    · rw [if_neg (fun hc => ha hc.1), dif_pos (by simpa using h), dif_pos h]
      exact Array.getElem_modify_of_ne ha _ _
  · rw [if_neg (fun hc => h hc.2), dif_neg (by simpa using h), dif_neg h]

theorem addEdge_label (g : Graph) (a b i : Nat) :
    (nodeAt (addEdge g a b) i).label = (nodeAt g i).label := by
  unfold addEdge
  simp only [nodeAt_modify, Array.size_modify]
  split <;> split <;> rfl

theorem addEdge_stat (g : Graph) (a b i : Nat) :
    (nodeAt (addEdge g a b) i).stat = (nodeAt g i).stat := by
  unfold addEdge
  simp only [nodeAt_modify, Array.size_modify]
  split <;> split <;> rfl

theorem addEdge_statements (g : Graph) (a b i : Nat) :
    (nodeAt (addEdge g a b) i).statements = (nodeAt g i).statements := by
  unfold addEdge
  simp only [nodeAt_modify, Array.size_modify]
  split <;> split <;> rfl

theorem addEdge_next (g : Graph) (a b i : Nat) :
    (nodeAt (addEdge g a b) i).next =
      if a = i ∧ i < g.nodes.size then listInsert (nodeAt g i).next b
      else (nodeAt g i).next := by
  unfold addEdge
  simp only [nodeAt_modify, Array.size_modify]
  split_ifs with h1 h2 h3 <;> rfl

theorem appendStmt_label (g : Graph) (a : Nat) (s : Stmt) (i : Nat) :
    (nodeAt (appendStmt g a s) i).label = (nodeAt g i).label := by
  unfold appendStmt
  rw [nodeAt_modify]
  split <;> rfl

theorem appendStmt_stat (g : Graph) (a : Nat) (s : Stmt) (i : Nat) :
    (nodeAt (appendStmt g a s) i).stat = (nodeAt g i).stat := by
  unfold appendStmt
  rw [nodeAt_modify]
  split <;> rfl

theorem appendStmt_next (g : Graph) (a : Nat) (s : Stmt) (i : Nat) :
    (nodeAt (appendStmt g a s) i).next = (nodeAt g i).next := by
  unfold appendStmt
  rw [nodeAt_modify]
  split <;> rfl

theorem buildStep_refl (g : Graph) (A : Nat → Prop) : BuildStep g g A :=
  ⟨Nat.le_refl _, fun _ _ => ⟨rfl, rfl⟩, fun _ _ h => h, fun _ _ h => Or.inl h⟩

theorem buildStep_trans_absorb {g0 g1 g2 : Graph} {A B : Nat → Prop}
    (h1 : BuildStep g0 g1 A) (h2 : BuildStep g1 g2 B)
    (habs : ∀ t, B t → A t ∨ g0.nodes.size ≤ t) : BuildStep g0 g2 A := by
  obtain ⟨s1, p1, m1, n1⟩ := h1
  obtain ⟨s2, p2, m2, n2⟩ := h2
  refine ⟨Nat.le_trans s1 s2, ?_, ?_, ?_⟩
  · intro i hi
    obtain ⟨st2, lb2⟩ := p2 i (Nat.lt_of_lt_of_le hi s1)
    obtain ⟨st1, lb1⟩ := p1 i hi
    exact ⟨st2.trans st1, lb2.trans lb1⟩
  · intro i t ht
    exact m2 i t (m1 i t ht)
  · intro i t ht
    rcases n2 i t ht with h | h | h
    · exact n1 i t h
    · exact Or.inr (Or.inl (Nat.le_trans s1 h))
    · rcases habs t h with h' | h'
      · exact Or.inr (Or.inr h')
      · exact Or.inr (Or.inl h')

theorem buildStep_comp {g0 g1 g2 : Graph} {A : Nat → Prop}
    (h1 : BuildStep g0 g1 A) (h2 : BuildStep g1 g2 A) : BuildStep g0 g2 A :=
  buildStep_trans_absorb h1 h2 (fun _ h => Or.inl h)

theorem buildStep_push (g : Graph) (l : Option String) (s : Option Stmt) (A : Nat → Prop) :
    BuildStep g (Graph.mk (g.nodes.push (mkNode l s))) A := by
  refine ⟨by simp, ?_, ?_, ?_⟩
  · intro i hi
    rw [nodeAt_push, if_pos hi]
    exact ⟨rfl, rfl⟩
  · intro i t ht
    by_cases hi : i < g.nodes.size
    · rw [nodeAt_push, if_pos hi]
      exact ht
    · rw [nodeAt_of_le g i (Nat.le_of_not_lt hi)] at ht
      cases ht
  · intro i t ht
    by_cases hi : i < g.nodes.size
    · rw [nodeAt_push, if_pos hi] at ht
      exact Or.inl ht
    · by_cases he : i = g.nodes.size
      · rw [nodeAt_push, if_neg hi, if_pos he] at ht
        cases ht
      · rw [nodeAt_push, if_neg hi, if_neg he] at ht
        cases ht

theorem buildStep_addEdge (g : Graph) (a b : Nat) (A : Nat → Prop)
    (hb : A b ∨ g.nodes.size ≤ b) : BuildStep g (addEdge g a b) A := by
  refine ⟨Nat.le_of_eq (size_addEdge g a b).symm, ?_, ?_, ?_⟩
  · intro i hi
    exact ⟨addEdge_stat g a b i, addEdge_label g a b i⟩
  · intro i t ht
    rw [addEdge_next]
    split
    · exact mem_listInsert_of_mem _ ht
    · exact ht
  · intro i t ht
    rw [addEdge_next] at ht
    revert ht
    split
    · intro ht
      rcases mem_listInsert_inv ht with h | h
      · exact Or.inl h
      · subst h
        rcases hb with h | h
        · exact Or.inr (Or.inr h)
        · exact Or.inr (Or.inl h)
    · intro ht
      exact Or.inl ht

theorem buildStep_appendStmt (g : Graph) (a : Nat) (s : Stmt) (A : Nat → Prop) :
    BuildStep g (appendStmt g a s) A := by
  refine ⟨Nat.le_of_eq (size_appendStmt g a s).symm, ?_, ?_, ?_⟩
  · intro i hi
    exact ⟨appendStmt_stat g a s i, appendStmt_label g a s i⟩
  · intro i t ht
    rw [appendStmt_next]
    exact ht
  · intro i t ht
    rw [appendStmt_next] at ht
    exact Or.inl ht

theorem buildStep_joinTo (g : Graph) (x : Option Nat) (tgt : Nat) (A : Nat → Prop)
    (h : A tgt ∨ g.nodes.size ≤ tgt) : BuildStep g (joinTo g x tgt) A := by
  cases x with
  | none => exact buildStep_refl g A
  | some v => exact buildStep_addEdge g v tgt A h

theorem size_joinTo (g : Graph) (x : Option Nat) (tgt : Nat) :
    (joinTo g x tgt).nodes.size = g.nodes.size := by
  cases x <;> simp [joinTo, size_addEdge]

theorem buildStep_mono {g0 g1 : Graph} {A B : Nat → Prop}
    (hsub : ∀ t, A t → B t) (h : BuildStep g0 g1 A) : BuildStep g0 g1 B := by
  obtain ⟨s, p, m, n⟩ := h
  exact ⟨s, p, m, fun i t ht => (n i t ht).imp id (Or.imp id (hsub t))⟩

theorem size_addNextNew (g : Graph) (a : Nat) (l : Option String) (s : Option Stmt) :
    ((addNextNew g a l s).1).nodes.size = g.nodes.size + 1 := by
  simp [addNextNew, newNode, size_addEdge]

theorem buildStep_addNextNew (g : Graph) (a : Nat) (l : Option String) (s : Option Stmt)
    (A : Nat → Prop) : BuildStep g (addNextNew g a l s).1 A := by
  refine buildStep_trans_absorb (buildStep_push g l s A)
    (buildStep_addEdge (Graph.mk (g.nodes.push (mkNode l s))) a g.nodes.size
      (fun t => t = g.nodes.size) (Or.inl rfl))
    (fun t ht => Or.inr (ht ▸ Nat.le_refl _))

theorem size_elsePreState (g : Graph) (a : Nat) :
    (elsePreState g a).nodes.size = g.nodes.size + 1 := by
  simp [elsePreState, addNextNew, newNode, size_addEdge]

theorem size_elseChain (g : Graph) (e tgt : Nat) :
    (elseChain g e tgt).nodes.size = g.nodes.size + 1 := by
  simp [elseChain, addNextNew, newNode, size_addEdge]

theorem size_ifPreStateN (g : Graph) (stmt : Stmt) (e : Nat) :
    (ifPreStateN g stmt e).nodes.size = g.nodes.size + 2 := by
  simp [ifPreStateN, size_addEdge]

theorem size_casePreStateN (g : Graph) (stmt : Stmt) (e : Nat) :
    (casePreStateN g stmt e).nodes.size = g.nodes.size + 2 := by
  simp [casePreStateN, size_addEdge]

theorem size_loopPreState (g : Graph) (stmt : Stmt) (e : Nat) :
    (loopPreState g stmt e).nodes.size = g.nodes.size + 3 := by
  simp [loopPreState, size_addEdge]

theorem size_loopPostState (gj : Graph) (head K : Nat) :
    (loopPostState gj head K).nodes.size = gj.nodes.size + 1 := by
  simp [loopPostState, size_addEdge]

theorem buildStep_elsePreState (g : Graph) (a : Nat) (A : Nat → Prop) :
    BuildStep g (elsePreState g a) A :=
  buildStep_addNextNew g a (some "else") none A

theorem buildStep_elseChain (g : Graph) (e tgt : Nat) (A : Nat → Prop)
    (h : A tgt ∨ g.nodes.size ≤ tgt) : BuildStep g (elseChain g e tgt) A := by
  refine buildStep_trans_absorb (buildStep_addNextNew g e (some "_else") none A)
    (buildStep_addEdge ((addNextNew g e (some "_else") none).1)
      (addNextNew g e (some "_else") none).2 tgt (fun t => t = tgt) (Or.inl rfl))
    (fun t ht => ht ▸ h)

theorem buildStep_loopPostState (gj : Graph) (head K : Nat) (A : Nat → Prop)
    (hK : A K ∨ gj.nodes.size ≤ K) : BuildStep gj (loopPostState gj head K) A := by
  refine buildStep_trans_absorb ?_
    (buildStep_addEdge (addEdge (Graph.mk (gj.nodes.push (mkNode (some "_else") none)))
      head gj.nodes.size) gj.nodes.size K (fun t => t = K) (Or.inl rfl))
    (fun t ht => ht ▸ hK)
  refine buildStep_trans_absorb (buildStep_push gj (some "_else") none A)
    (buildStep_addEdge (Graph.mk (gj.nodes.push (mkNode (some "_else") none)))
      head gj.nodes.size (fun t => t = gj.nodes.size) (Or.inl rfl))
    (fun t ht => Or.inr (ht ▸ Nat.le_refl _))

theorem buildStep_ifPreStateN (g : Graph) (stmt : Stmt) (e : Nat) (A : Nat → Prop) :
    BuildStep g (ifPreStateN g stmt e) A := by
  refine buildStep_trans_absorb ?_
    (buildStep_addEdge (Graph.mk ((g.nodes.push (mkNode (some "if_end") none)).push
      (mkNode (some "if") (some stmt)))) e (g.nodes.size + 1)
      (fun t => t = g.nodes.size + 1) (Or.inl rfl))
    (fun t ht => Or.inr (ht ▸ Nat.le_succ_of_le (Nat.le_refl _)))
  exact buildStep_comp (buildStep_push g (some "if_end") none A)
    (buildStep_push (Graph.mk (g.nodes.push (mkNode (some "if_end") none)))
      (some "if") (some stmt) A)

theorem buildStep_casePreStateN (g : Graph) (stmt : Stmt) (e : Nat) (A : Nat → Prop) :
    BuildStep g (casePreStateN g stmt e) A := by
  refine buildStep_comp ?_
    (buildStep_push (addEdge (Graph.mk (g.nodes.push (mkNode (some "CASE") (some stmt))))
      e g.nodes.size) (some "case_end") none A)
  refine buildStep_trans_absorb (buildStep_push g (some "CASE") (some stmt) A)
    (buildStep_addEdge (Graph.mk (g.nodes.push (mkNode (some "CASE") (some stmt))))
      e g.nodes.size (fun t => t = g.nodes.size) (Or.inl rfl))
    (fun t ht => Or.inr (ht ▸ Nat.le_refl _))

theorem buildStep_loopPreState (g : Graph) (stmt : Stmt) (e : Nat) (A : Nat → Prop) :
    BuildStep g (loopPreState g stmt e) A := by
  refine buildStep_comp ?_
    (buildStep_push (addEdge (Graph.mk ((addEdge (Graph.mk (g.nodes.push
      (mkNode (some "loop") (some stmt)))) e g.nodes.size).nodes.push
      (mkNode (some "loop_start") none))) g.nodes.size (g.nodes.size + 1))
      (some "loop_end") none A)
  refine buildStep_trans_absorb ?_
    (buildStep_addEdge (Graph.mk ((addEdge (Graph.mk (g.nodes.push
      (mkNode (some "loop") (some stmt)))) e g.nodes.size).nodes.push
      (mkNode (some "loop_start") none))) g.nodes.size (g.nodes.size + 1)
      (fun t => t = g.nodes.size + 1) (Or.inl rfl))
    (fun t ht => Or.inr (ht ▸ Nat.le_succ_of_le (Nat.le_refl _)))
  refine buildStep_comp ?_
    (buildStep_push (addEdge (Graph.mk (g.nodes.push (mkNode (some "loop") (some stmt))))
      e g.nodes.size) (some "loop_start") none A)
  refine buildStep_trans_absorb (buildStep_push g (some "loop") (some stmt) A)
    (buildStep_addEdge (Graph.mk (g.nodes.push (mkNode (some "loop") (some stmt))))
      e g.nodes.size (fun t => t = g.nodes.size) (Or.inl rfl))
    (fun t ht => Or.inr (ht ▸ Nat.le_refl _))

theorem loopArm_step (g : Graph) (stmt : Stmt) (body : List Stmt) (e : Nat)
    (xD cD : Option Nat) (g2 : Graph) (e2 : Option Nat)
    (ih : StmtsStepP body)
    (h : loopArmBuild g stmt body e xD cD = .ok (g2, e2)) :
    BuildStep g g2 (fun t => xD = some t ∨ cD = some t) ∧
    ∀ v, e2 = some v → v = e ∨ (g.nodes.size ≤ v ∧ v < g2.nodes.size) := by
  obtain ⟨g1, bEnd, h1, he2, hg2⟩ := loopArmBuild_ok g stmt body e xD cD g2 e2 h
  obtain ⟨stB, _⟩ := ih _ _ _ _ _ _ h1
  have hg1 : g.nodes.size + 3 ≤ g1.nodes.size := by
    have := stB.1
    rwa [size_loopPreState] at this
  have c1 : BuildStep g g1 (fun t => xD = some t ∨ cD = some t) :=
    buildStep_trans_absorb (buildStep_loopPreState g stmt e _) stB
      (fun t ht => by
        rcases ht with ht | ht <;> injection ht with ht <;> exact Or.inr (by omega))
  have c2 : BuildStep g (joinTo g1 bEnd (g.nodes.size + 2))
      (fun t => xD = some t ∨ cD = some t) :=
    buildStep_trans_absorb c1
      (buildStep_joinTo g1 bEnd (g.nodes.size + 2) (fun t => t = g.nodes.size + 2)
        (Or.inl rfl))
      (fun t ht => Or.inr (by omega))
  have c3 : BuildStep g g2 (fun t => xD = some t ∨ cD = some t) := by
    rw [hg2]
    exact buildStep_trans_absorb c2
      (buildStep_loopPostState (joinTo g1 bEnd (g.nodes.size + 2)) g.nodes.size
        (g.nodes.size + 2) (fun t => t = g.nodes.size + 2) (Or.inl rfl))
      (fun t ht => Or.inr (by omega))
  have hsz2 : g2.nodes.size = g1.nodes.size + 1 := by
    rw [hg2, size_loopPostState, size_joinTo]
  refine ⟨c3, ?_⟩
  intro v hv
  rw [he2] at hv
  injection hv with hv
  exact Or.inr ⟨by omega, by omega⟩

theorem ifArm_none_step (g : Graph) (stmt : Stmt) (ts : List Stmt)
    (el : List (Expr × List Stmt)) (e : Nat) (xD cD : Option Nat)
    (g2 : Graph) (e2 : Option Nat)
    (ihT : StmtsStepP ts) (ihE : ElifsStepP el)
    (h : ifArmBuild g stmt ts el none e xD cD = .ok (g2, e2)) :
    BuildStep g g2 (fun t => xD = some t ∨ cD = some t) ∧
    ∀ v, e2 = some v → v = e ∨ (g.nodes.size ≤ v ∧ v < g2.nodes.size) := by
  obtain ⟨gt, tEnd, g3, h1, h2, he2, hg2⟩ := ifArmBuild_none_ok g stmt ts el e xD cD g2 e2 h
  obtain ⟨stT, _⟩ := ihT _ _ _ _ _ _ h1
  have sElifs := ihE _ _ _ _ _ _ h2
  have hgt : g.nodes.size + 2 ≤ gt.nodes.size := by
    have := stT.1
    rwa [size_ifPreStateN] at this
  have hg3 : gt.nodes.size ≤ g3.nodes.size := by
    have := sElifs.1
    rwa [size_joinTo] at this
  have c1 : BuildStep g gt (fun t => xD = some t ∨ cD = some t) :=
    buildStep_comp (buildStep_ifPreStateN g stmt e _) stT
  have c2 : BuildStep g (joinTo gt tEnd g.nodes.size)
      (fun t => xD = some t ∨ cD = some t) :=
    buildStep_trans_absorb c1
      (buildStep_joinTo gt tEnd g.nodes.size (fun t => t = g.nodes.size) (Or.inl rfl))
      (fun t ht => Or.inr (by omega))
  have c3 : BuildStep g g3 (fun t => xD = some t ∨ cD = some t) :=
    buildStep_trans_absorb c2 sElifs
      (fun t ht => by
        rcases ht with ht | ht | ht
        · exact Or.inl (Or.inl ht)
        · exact Or.inl (Or.inr ht)
        · exact Or.inr (by omega))
  have c4 : BuildStep g g2 (fun t => xD = some t ∨ cD = some t) := by
    rw [hg2]
    exact buildStep_trans_absorb c3
      (buildStep_elseChain g3 e g.nodes.size (fun t => t = g.nodes.size) (Or.inl rfl))
      (fun t ht => Or.inr (by omega))
  have hsz : g2.nodes.size = g3.nodes.size + 1 := by
    rw [hg2, size_elseChain]
  refine ⟨c4, ?_⟩
  intro v hv
  rw [he2] at hv
  injection hv with hv
  exact Or.inr ⟨by omega, by omega⟩

theorem ifArm_some_step (g : Graph) (stmt : Stmt) (ts els : List Stmt)
    (el : List (Expr × List Stmt)) (e : Nat) (xD cD : Option Nat)
    (g2 : Graph) (e2 : Option Nat)
    (ihT : StmtsStepP ts) (ihE : ElifsStepP el) (ihS : StmtsStepP els)
    (h : ifArmBuild g stmt ts el (some els) e xD cD = .ok (g2, e2)) :
    BuildStep g g2 (fun t => xD = some t ∨ cD = some t) ∧
    ∀ v, e2 = some v → v = e ∨ (g.nodes.size ≤ v ∧ v < g2.nodes.size) := by
  obtain ⟨gt, tEnd, g3, gel, eEnd, h1, h2, h3, he2, hg2⟩ :=
    ifArmBuild_some_ok g stmt ts els el e xD cD g2 e2 h
  obtain ⟨stT, _⟩ := ihT _ _ _ _ _ _ h1
  have sElifs := ihE _ _ _ _ _ _ h2
  obtain ⟨stS, _⟩ := ihS _ _ _ _ _ _ h3
  have hgt : g.nodes.size + 2 ≤ gt.nodes.size := by
    have := stT.1
    rwa [size_ifPreStateN] at this
  have hg3 : gt.nodes.size ≤ g3.nodes.size := by
    have := sElifs.1
    rwa [size_joinTo] at this
  have hgel : g3.nodes.size + 1 ≤ gel.nodes.size := by
    have := stS.1
    rwa [size_elsePreState] at this
  have c1 : BuildStep g gt (fun t => xD = some t ∨ cD = some t) :=
    buildStep_comp (buildStep_ifPreStateN g stmt e _) stT
  have c2 : BuildStep g (joinTo gt tEnd g.nodes.size)
      (fun t => xD = some t ∨ cD = some t) :=
    buildStep_trans_absorb c1
      (buildStep_joinTo gt tEnd g.nodes.size (fun t => t = g.nodes.size) (Or.inl rfl))
      (fun t ht => Or.inr (by omega))
  have c3 : BuildStep g g3 (fun t => xD = some t ∨ cD = some t) :=
    buildStep_trans_absorb c2 sElifs
      (fun t ht => by
        rcases ht with ht | ht | ht
        · exact Or.inl (Or.inl ht)
        · exact Or.inl (Or.inr ht)
        · exact Or.inr (by omega))
  have c4 : BuildStep g gel (fun t => xD = some t ∨ cD = some t) :=
    buildStep_comp (buildStep_comp c3 (buildStep_elsePreState g3 e _)) stS
  have c5 : BuildStep g g2 (fun t => xD = some t ∨ cD = some t) := by
    rw [hg2]
    exact buildStep_trans_absorb c4
      (buildStep_joinTo gel eEnd g.nodes.size (fun t => t = g.nodes.size) (Or.inl rfl))
      (fun t ht => Or.inr (by omega))
  have hsz : g2.nodes.size = gel.nodes.size := by
    rw [hg2, size_joinTo]
  refine ⟨c5, ?_⟩
  intro v hv
  rw [he2] at hv
  injection hv with hv
  exact Or.inr ⟨by omega, by omega⟩

theorem caseArm_none_step (g : Graph) (stmt : Stmt) (cs : List (String × List Stmt))
    (e : Nat) (xD cD : Option Nat) (g2 : Graph) (e2 : Option Nat)
    (ihC : CasesStepP cs)
    (h : caseArmBuild g stmt cs none e xD cD = .ok (g2, e2)) :
    BuildStep g g2 (fun t => xD = some t ∨ cD = some t) ∧
    ∀ v, e2 = some v → v = e ∨ (g.nodes.size ≤ v ∧ v < g2.nodes.size) := by
  obtain ⟨g3, h1, he2, hg2⟩ := caseArmBuild_none_ok g stmt cs e xD cD g2 e2 h
  have sCases := ihC _ _ _ _ _ _ _ h1
  have hg3 : g.nodes.size + 2 ≤ g3.nodes.size := by
    have := sCases.1
    rwa [size_casePreStateN] at this
  have c1 : BuildStep g g3 (fun t => xD = some t ∨ cD = some t) :=
    buildStep_trans_absorb (buildStep_casePreStateN g stmt e _) sCases
      (fun t ht => by
        rcases ht with ht | ht | ht
        · exact Or.inl (Or.inl ht)
        · exact Or.inl (Or.inr ht)
        · exact Or.inr (by omega))
  refine ⟨hg2 ▸ c1, ?_⟩
  intro v hv
  rw [he2] at hv
  injection hv with hv
  rw [hg2]
  exact Or.inr ⟨by omega, by omega⟩

theorem caseArm_some_step (g : Graph) (stmt : Stmt) (cs : List (String × List Stmt))
    (els : List Stmt) (e : Nat) (xD cD : Option Nat) (g2 : Graph) (e2 : Option Nat)
    (ihC : CasesStepP cs) (ihS : StmtsStepP els)
    (h : caseArmBuild g stmt cs (some els) e xD cD = .ok (g2, e2)) :
    BuildStep g g2 (fun t => xD = some t ∨ cD = some t) ∧
    ∀ v, e2 = some v → v = e ∨ (g.nodes.size ≤ v ∧ v < g2.nodes.size) := by
  obtain ⟨g3, gel, eEnd, h1, h3, he2, hg2⟩ :=
    caseArmBuild_some_ok g stmt cs els e xD cD g2 e2 h
  have sCases := ihC _ _ _ _ _ _ _ h1
  obtain ⟨stS, _⟩ := ihS _ _ _ _ _ _ h3
  have hg3 : g.nodes.size + 2 ≤ g3.nodes.size := by
    have := sCases.1
    rwa [size_casePreStateN] at this
  have hgel : g3.nodes.size + 1 ≤ gel.nodes.size := by
    have := stS.1
    rwa [size_elsePreState] at this
  have c1 : BuildStep g g3 (fun t => xD = some t ∨ cD = some t) :=
    buildStep_trans_absorb (buildStep_casePreStateN g stmt e _) sCases
      (fun t ht => by
        rcases ht with ht | ht | ht
        · exact Or.inl (Or.inl ht)
        · exact Or.inl (Or.inr ht)
        · exact Or.inr (by omega))
  have c2 : BuildStep g gel (fun t => xD = some t ∨ cD = some t) :=
    buildStep_comp (buildStep_comp c1 (buildStep_elsePreState g3 g.nodes.size _)) stS
  have c3 : BuildStep g g2 (fun t => xD = some t ∨ cD = some t) := by
    rw [hg2]
    exact buildStep_trans_absorb c2
      (buildStep_joinTo gel eEnd (g.nodes.size + 1) (fun t => t = g.nodes.size + 1)
        (Or.inl rfl))
      (fun t ht => Or.inr (by omega))
  have hsz : g2.nodes.size = gel.nodes.size := by
    rw [hg2, size_joinTo]
  refine ⟨c3, ?_⟩
  intro v hv
  rw [he2] at hv
  injection hv with hv
  exact Or.inr ⟨by omega, by omega⟩

mutual
theorem buildStmt_step : ∀ (stmt : Stmt), StmtStepP stmt
  | .ifS c ts el none => fun g e xD cD g2 e2 h =>
      ifArm_none_step g (Stmt.ifS c ts el none) ts el e xD cD g2 e2
        (buildStmts_step ts) (buildElifs_step el)
        (by rw [buildStmt_ifS_none_def] at h; exact h)
  | .ifS c ts el (some els) => fun g e xD cD g2 e2 h =>
      ifArm_some_step g (Stmt.ifS c ts el (some els)) ts els el e xD cD g2 e2
        (buildStmts_step ts) (buildElifs_step el) (buildStmts_step els)
        (by rw [buildStmt_ifS_some_def] at h; exact h)
  | .caseS ex cs none => fun g e xD cD g2 e2 h =>
      caseArm_none_step g (Stmt.caseS ex cs none) cs e xD cD g2 e2
        (buildCases_step cs)
        (by rw [buildStmt_caseS_none_def] at h; exact h)
  | .caseS ex cs (some els) => fun g e xD cD g2 e2 h =>
      caseArm_some_step g (Stmt.caseS ex cs (some els)) cs els e xD cD g2 e2
        (buildCases_step cs) (buildStmts_step els)
        (by rw [buildStmt_caseS_some_def] at h; exact h)
  | .whileS c body => fun g e xD cD g2 e2 h =>
      loopArm_step g (Stmt.whileS c body) body e xD cD g2 e2 (buildStmts_step body)
        (by rw [buildStmt_whileS_def] at h; exact h)
  | .repeatS body c => fun g e xD cD g2 e2 h =>
      loopArm_step g (Stmt.repeatS body c) body e xD cD g2 e2 (buildStmts_step body)
        (by rw [buildStmt_repeatS_def] at h; exact h)
  | .forS ctl f t body => fun g e xD cD g2 e2 h =>
      loopArm_step g (Stmt.forS ctl f t body) body e xD cD g2 e2 (buildStmts_step body)
        (by rw [buildStmt_forS_def] at h; exact h)
  | .labeled lbl none => fun g e xD cD g2 e2 h => by
      replace h : (Except.ok ((addNextNew g e (some lbl) (some (Stmt.labeled lbl none))).1,
          some g.nodes.size) : Except String (Graph × Option Nat)) = .ok (g2, e2) := h
      injection h with h'
      obtain ⟨hg, he⟩ := Prod.mk.inj h'
      subst hg
      refine ⟨buildStep_addNextNew g e (some lbl) (some (Stmt.labeled lbl none)) _, ?_⟩
      intro v hv
      rw [← he] at hv
      injection hv with hv
      refine Or.inr ⟨by omega, ?_⟩
      rw [size_addNextNew]
      omega
  | .labeled lbl (some s) => fun g e xD cD g2 e2 h => by
      replace h : (Except.ok (appendStmt
          (addNextNew g e (some lbl) (some (Stmt.labeled lbl (some s)))).1 g.nodes.size s,
          some g.nodes.size) : Except String (Graph × Option Nat)) = .ok (g2, e2) := h
      injection h with h'
      obtain ⟨hg, he⟩ := Prod.mk.inj h'
      subst hg
      refine ⟨buildStep_comp
        (buildStep_addNextNew g e (some lbl) (some (Stmt.labeled lbl (some s))) _)
        (buildStep_appendStmt _ g.nodes.size s _), ?_⟩
      intro v hv
      rw [← he] at hv
      injection hv with hv
      refine Or.inr ⟨by omega, ?_⟩
      rw [size_appendStmt, size_addNextNew]
      omega
  | .exitS => fun g e xD cD g2 e2 h => by
      cases xD with
      | none =>
        exact Except.noConfusion (show (Except.error "EXIT used outside of loop" :
          Except String (Graph × Option Nat)) = Except.ok (g2, e2) from h)
      | some d =>
        replace h : (Except.ok (addEdge (appendStmt g e Stmt.exitS) e d,
            (none : Option Nat)) : Except String (Graph × Option Nat)) = .ok (g2, e2) := h
        injection h with h'
        obtain ⟨hg, he⟩ := Prod.mk.inj h'
        subst hg
        refine ⟨buildStep_comp (buildStep_appendStmt g e Stmt.exitS _)
          (buildStep_addEdge (appendStmt g e Stmt.exitS) e d _ (Or.inl (Or.inl rfl))), ?_⟩
        intro v hv
        rw [← he] at hv
        exact Option.noConfusion hv
  | .continueS => fun g e xD cD g2 e2 h => by
      cases cD with
      | none =>
        exact Except.noConfusion (show (Except.error "CONTINUE used outside of loop" :
          Except String (Graph × Option Nat)) = Except.ok (g2, e2) from h)
      | some d =>
        replace h : (Except.ok (addEdge (appendStmt g e Stmt.continueS) e d,
            (none : Option Nat)) : Except String (Graph × Option Nat)) = .ok (g2, e2) := h
        injection h with h'
        obtain ⟨hg, he⟩ := Prod.mk.inj h'
        subst hg
        refine ⟨buildStep_comp (buildStep_appendStmt g e Stmt.continueS _)
          (buildStep_addEdge (appendStmt g e Stmt.continueS) e d _ (Or.inl (Or.inr rfl))), ?_⟩
        intro v hv
        rw [← he] at hv
        exact Option.noConfusion hv
  | .returnS => fun g e xD cD g2 e2 h => by
      replace h : (Except.ok (appendStmt g e Stmt.returnS,
          (none : Option Nat)) : Except String (Graph × Option Nat)) = .ok (g2, e2) := h
      injection h with h'
      obtain ⟨hg, he⟩ := Prod.mk.inj h'
      subst hg
      refine ⟨buildStep_appendStmt g e Stmt.returnS _, ?_⟩
      intro v hv
      rw [← he] at hv
      exact Option.noConfusion hv
  | .assign vs ex => fun g e xD cD g2 e2 h => by
      replace h : (Except.ok (appendStmt g e (Stmt.assign vs ex),
          some e) : Except String (Graph × Option Nat)) = .ok (g2, e2) := h
      injection h with h'
      obtain ⟨hg, he⟩ := Prod.mk.inj h'
      subst hg
      refine ⟨buildStep_appendStmt g e (Stmt.assign vs ex) _, ?_⟩
      intro v hv
      rw [← he] at hv
      injection hv with hv
      exact Or.inl hv.symm
theorem buildStmts_step : ∀ (stmts : List Stmt), StmtsStepP stmts
  | [] => fun g e xD cD g2 e2 h => by
      replace h : (Except.ok (g, some e) : Except String (Graph × Option Nat))
        = .ok (g2, e2) := h
      injection h with h'
      obtain ⟨hg, he⟩ := Prod.mk.inj h'
      subst hg
      refine ⟨buildStep_refl g _, ?_⟩
      intro v hv
      rw [← he] at hv
      injection hv with hv
      exact Or.inl hv.symm
  | s :: rest => fun g e xD cD g2 e2 h => by
      rw [buildStmts_cons_def] at h
      obtain ⟨⟨gm, eOpt⟩, h1, h2⟩ := bind_ok h
      obtain ⟨st1, end1⟩ := buildStmt_step s g e xD cD gm eOpt h1
      cases eOpt with
      | none =>
        replace h2 : (Except.ok (gm, (none : Option Nat)) :
            Except String (Graph × Option Nat)) = .ok (g2, e2) := h2
        injection h2 with h2'
        obtain ⟨hg, he⟩ := Prod.mk.inj h2'
        subst hg
        refine ⟨st1, ?_⟩
        intro v hv
        rw [← he] at hv
        exact Option.noConfusion hv
      | some em =>
        replace h2 : buildStmts gm rest em xD cD = .ok (g2, e2) := h2
        obtain ⟨st2, end2⟩ := buildStmts_step rest gm em xD cD g2 e2 h2
        refine ⟨buildStep_comp st1 st2, ?_⟩
        intro v hv
        rcases end2 v hv with hv' | ⟨hl, hr⟩
        · rcases end1 v (by rw [hv']) with h' | ⟨h1', h2'⟩
          · exact Or.inl h'
          · exact Or.inr ⟨h1', Nat.lt_of_lt_of_le h2' st2.1⟩
        · exact Or.inr ⟨Nat.le_trans st1.1 hl, hr⟩
theorem buildElifs_step : ∀ (elifs : List (Expr × List Stmt)), ElifsStepP elifs
  | [] => fun g e ifEnd xD cD g2 h => by
      replace h : (Except.ok g : Except String Graph) = .ok g2 := h
      injection h with h'
      subst h'
      exact buildStep_refl g _
  | (c, ss) :: rest => fun g e ifEnd xD cD g2 h => by
      rw [buildElifs_cons_def] at h
      obtain ⟨⟨gm, eEnd⟩, h1, h2⟩ := bind_ok h
      obtain ⟨st1, _⟩ := buildStmts_step ss _ _ _ _ _ _ h1
      replace h2 : buildElifs (joinTo gm eEnd ifEnd) rest e ifEnd xD cD = .ok g2 := h2
      have st2 := buildElifs_step rest _ _ _ _ _ _ h2
      have cm : BuildStep (addNextNew g e (some "elsif") none).1 gm
          (fun t => xD = some t ∨ cD = some t ∨ t = ifEnd) :=
        buildStep_mono (fun t ht => ht.imp id Or.inl) st1
      exact buildStep_comp (buildStep_comp (buildStep_comp
        (buildStep_addNextNew g e (some "elsif") none _) cm)
        (buildStep_joinTo gm eEnd ifEnd _ (Or.inl (Or.inr (Or.inr rfl))))) st2
theorem buildCases_step : ∀ (cs : List (String × List Stmt)), CasesStepP cs
  | [] => fun g o caseNode caseEnd xD cD g2 h => by
      replace h : (Except.ok g : Except String Graph) = .ok g2 := h
      injection h with h'
      subst h'
      exact buildStep_refl g _
  | (lbl, ss) :: rest => fun g o caseNode caseEnd xD cD g2 h => by
      rw [buildCases_cons_def] at h
      obtain ⟨⟨gm, aEnd⟩, h1, h2⟩ := bind_ok h
      obtain ⟨st1, _⟩ := buildStmts_step ss _ _ _ _ _ _ h1
      replace h2 : buildCases (joinTo gm aEnd caseEnd) o rest caseNode caseEnd xD cD
        = .ok g2 := h2
      have st2 := buildCases_step rest _ _ _ _ _ _ _ h2
      have cm : BuildStep (addNextNew g caseNode (some lbl) (some o)).1 gm
          (fun t => xD = some t ∨ cD = some t ∨ t = caseEnd) :=
        buildStep_mono (fun t ht => ht.imp id Or.inl) st1
      exact buildStep_comp (buildStep_comp (buildStep_comp
        (buildStep_addNextNew g caseNode (some lbl) (some o) _) cm)
        (buildStep_joinTo gm aEnd caseEnd _ (Or.inl (Or.inr (Or.inr rfl))))) st2

end

theorem nodeAt_push_lt (arr : Array PNode) (nd : PNode) (i : Nat) (h : i < arr.size) :
    nodeAt (Graph.mk (arr.push nd)) i = nodeAt (Graph.mk arr) i := by
  rw [nodeAt_push, if_pos h]

theorem nodeAt_push_self (arr : Array PNode) (nd : PNode) (i : Nat) (h : i = arr.size) :
    nodeAt (Graph.mk (arr.push nd)) i = nd := by
  subst h
  rw [nodeAt_push, if_neg (Nat.lt_irrefl _), if_pos rfl]

theorem addEdge_next_ne (g : Graph) (a b i : Nat) (h : a ≠ i) :
    (nodeAt (addEdge g a b) i).next = (nodeAt g i).next := by
  rw [addEdge_next, if_neg (fun hc => h hc.1)]

theorem addEdge_next_self (g : Graph) (a b : Nat) (ha : a < g.nodes.size) :
    (nodeAt (addEdge g a b) a).next = listInsert (nodeAt g a).next b := by
  rw [addEdge_next, if_pos ⟨rfl, ha⟩]

theorem addEdge_next_mono (g : Graph) (a b i t : Nat) (ht : t ∈ (nodeAt g i).next) :
    t ∈ (nodeAt (addEdge g a b) i).next := by
  rw [addEdge_next]
  split
  · exact mem_listInsert_of_mem _ ht
  · exact ht

theorem joinTo_label (g : Graph) (x : Option Nat) (tgt i : Nat) :
    (nodeAt (joinTo g x tgt) i).label = (nodeAt g i).label := by
  cases x <;> simp [joinTo, addEdge_label]

theorem joinTo_stat (g : Graph) (x : Option Nat) (tgt i : Nat) :
    (nodeAt (joinTo g x tgt) i).stat = (nodeAt g i).stat := by
  cases x <;> simp [joinTo, addEdge_stat]

theorem joinTo_next_mono (g : Graph) (x : Option Nat) (tgt i t : Nat)
    (ht : t ∈ (nodeAt g i).next) : t ∈ (nodeAt (joinTo g x tgt) i).next := by
  cases x with
  | none => exact ht
  | some v => exact addEdge_next_mono g v tgt i t ht

theorem joinTo_next_self (g : Graph) (be tgt : Nat) (hbe : be < g.nodes.size) :
    (nodeAt (joinTo g (some be) tgt) be).next = listInsert (nodeAt g be).next tgt :=
  addEdge_next_self g be tgt hbe

theorem lpost_label_lt (gj : Graph) (head K i : Nat) (hi : i < gj.nodes.size) :
    (nodeAt (loopPostState gj head K) i).label = (nodeAt gj i).label := by
  unfold loopPostState
  rw [addEdge_label, addEdge_label, nodeAt_push_lt _ _ _ hi]

theorem lpost_stat_lt (gj : Graph) (head K i : Nat) (hi : i < gj.nodes.size) :
    (nodeAt (loopPostState gj head K) i).stat = (nodeAt gj i).stat := by
  unfold loopPostState
  rw [addEdge_stat, addEdge_stat, nodeAt_push_lt _ _ _ hi]

theorem lpost_next_mono (gj : Graph) (head K i t : Nat) (hi : i < gj.nodes.size)
    (ht : t ∈ (nodeAt gj i).next) : t ∈ (nodeAt (loopPostState gj head K) i).next := by
  unfold loopPostState
  refine addEdge_next_mono _ _ _ _ _ (addEdge_next_mono _ _ _ _ _ ?_)
  rw [nodeAt_push_lt _ _ _ hi]
  exact ht

theorem lpost_next_ne (gj : Graph) (head K i : Nat) (hi : i < gj.nodes.size)
    (hne : head ≠ i) :
    (nodeAt (loopPostState gj head K) i).next = (nodeAt gj i).next := by
  unfold loopPostState
  rw [addEdge_next_ne _ _ _ _ (by omega : gj.nodes.size ≠ i),
    addEdge_next_ne _ _ _ _ hne, nodeAt_push_lt _ _ _ hi]

theorem lpost_next_head (gj : Graph) (head K : Nat) (hh : head < gj.nodes.size) :
    (nodeAt (loopPostState gj head K) head).next
      = listInsert (nodeAt gj head).next gj.nodes.size := by
  unfold loopPostState
  rw [addEdge_next_ne _ _ _ _ (by omega : gj.nodes.size ≠ head),
    addEdge_next_self _ _ _ (by simp only [size_addEdge, Array.size_push]; omega),
    nodeAt_push_lt _ _ _ hh]

theorem lpost_else_label (gj : Graph) (head K : Nat) :
    (nodeAt (loopPostState gj head K) gj.nodes.size).label = some "_else" := by
  unfold loopPostState
  rw [addEdge_label, addEdge_label, nodeAt_push_self _ _ _ rfl]
  rfl

theorem lpost_else_stat (gj : Graph) (head K : Nat) :
    (nodeAt (loopPostState gj head K) gj.nodes.size).stat = none := by
  unfold loopPostState
  rw [addEdge_stat, addEdge_stat, nodeAt_push_self _ _ _ rfl]
  rfl

theorem lpost_else_statements (gj : Graph) (head K : Nat) :
    (nodeAt (loopPostState gj head K) gj.nodes.size).statements = [] := by
  unfold loopPostState
  rw [addEdge_statements, addEdge_statements, nodeAt_push_self _ _ _ rfl]
  rfl

theorem lpost_else_next (gj : Graph) (head K : Nat) (hh : head < gj.nodes.size) :
    (nodeAt (loopPostState gj head K) gj.nodes.size).next = [K] := by
  unfold loopPostState
  rw [addEdge_next_self _ _ _ (by simp only [size_addEdge, Array.size_push]; omega),
    addEdge_next_ne _ _ _ _ (by omega : head ≠ gj.nodes.size),
    nodeAt_push_self _ _ _ rfl]
  simp [mkNode, listInsert]

theorem loopPreState_facts (g : Graph) (stmt : Stmt) (e : Nat) (he : e < g.nodes.size) :
    (nodeAt (loopPreState g stmt e) g.nodes.size).label = some "loop" ∧
    (nodeAt (loopPreState g stmt e) g.nodes.size).stat = some stmt ∧
    (nodeAt (loopPreState g stmt e) g.nodes.size).next = [g.nodes.size + 1] ∧
    (nodeAt (loopPreState g stmt e) (g.nodes.size + 1)).label = some "loop_start" ∧
    (nodeAt (loopPreState g stmt e) (g.nodes.size + 1)).next = [] ∧
    (nodeAt (loopPreState g stmt e) (g.nodes.size + 2)).label = some "loop_end" ∧
    g.nodes.size ∈ (nodeAt (loopPreState g stmt e) e).next := by
  unfold loopPreState
  refine ⟨?_, ?_, ?_, ?_, ?_, ?_, ?_⟩
  · rw [nodeAt_push_lt _ _ _ (by simp only [size_addEdge, Array.size_push]; omega),
      addEdge_label,
      nodeAt_push_lt _ _ _ (by simp only [size_addEdge, Array.size_push]; omega),
      addEdge_label, nodeAt_push_self _ _ _ rfl]
    rfl
  · rw [nodeAt_push_lt _ _ _ (by simp only [size_addEdge, Array.size_push]; omega),
      addEdge_stat,
      nodeAt_push_lt _ _ _ (by simp only [size_addEdge, Array.size_push]; omega),
      addEdge_stat, nodeAt_push_self _ _ _ rfl]
    rfl
  · rw [nodeAt_push_lt _ _ _ (by simp only [size_addEdge, Array.size_push]; omega),
      addEdge_next_self _ _ _ (by simp only [size_addEdge, Array.size_push]; omega),
      nodeAt_push_lt _ _ _ (by simp only [size_addEdge, Array.size_push]; omega),
      addEdge_next_ne _ _ _ _ (by omega : e ≠ g.nodes.size),
      nodeAt_push_self _ _ _ rfl]
    simp [mkNode, listInsert]
  · rw [nodeAt_push_lt _ _ _ (by simp only [size_addEdge, Array.size_push]; omega),
      addEdge_label,
      nodeAt_push_self _ _ _ (by simp only [size_addEdge, Array.size_push])]
    rfl
  · rw [nodeAt_push_lt _ _ _ (by simp only [size_addEdge, Array.size_push]; omega),
      addEdge_next_ne _ _ _ _ (by omega : g.nodes.size ≠ g.nodes.size + 1),
      nodeAt_push_self _ _ _ (by simp only [size_addEdge, Array.size_push])]
    rfl
  · rw [nodeAt_push_self _ _ _ (by simp only [size_addEdge, Array.size_push])]
    rfl
  · rw [nodeAt_push_lt _ _ _ (by simp only [size_addEdge, Array.size_push]; omega),
      addEdge_next_ne _ _ _ _ (by omega : g.nodes.size ≠ e),
      nodeAt_push_lt _ _ _ (by simp only [size_addEdge, Array.size_push]; omega),
      addEdge_next_self _ _ _ (by simp only [Array.size_push]; omega)]
    exact mem_listInsert_self _ _

theorem c1_loopArm_shape (g : Graph) (stmt : Stmt) (body : List Stmt) (e : Nat)
    (exitD contD : Option Nat) (g2 : Graph) (e2 : Option Nat)
    (he : e < g.nodes.size)
    (h : loopArmBuild g stmt body e exitD contD = .ok (g2, e2)) :
    e2 = some (g.nodes.size + 2) ∧
    (nodeAt g2 g.nodes.size).stat = some stmt ∧
    (nodeAt g2 g.nodes.size).label = some "loop" ∧
    (nodeAt g2 (g.nodes.size + 1)).label = some "loop_start" ∧
    (nodeAt g2 (g.nodes.size + 2)).label = some "loop_end" ∧
    g.nodes.size ∈ (nodeAt g2 e).next ∧
    (g.nodes.size + 1) ∈ (nodeAt g2 g.nodes.size).next ∧
    (∀ g1 bEnd, buildStmts (loopPreState g stmt e) body (g.nodes.size + 1)
        (some (g.nodes.size + 2)) (some (g.nodes.size + 1)) = .ok (g1, some bEnd) →
      (g.nodes.size + 2) ∈ (nodeAt g2 bEnd).next ∧
      g.nodes.size ∉ (nodeAt g2 bEnd).next) ∧
    (∃ elseN, elseN ∈ (nodeAt g2 g.nodes.size).next ∧
      (nodeAt g2 elseN).label = some "_else" ∧
      (nodeAt g2 elseN).stat = none ∧
      (nodeAt g2 elseN).statements = [] ∧
      (nodeAt g2 elseN).next = [g.nodes.size + 2]) := by
  obtain ⟨g1, bEnd, h1, he2, hg2⟩ := loopArmBuild_ok g stmt body e exitD contD g2 e2 h
  obtain ⟨stB, endB⟩ := buildStmts_step body _ _ _ _ _ _ h1
  have hg1 : g.nodes.size + 3 ≤ g1.nodes.size := by
    have := stB.1
    rwa [size_loopPreState] at this
  have hgj : (joinTo g1 bEnd (g.nodes.size + 2)).nodes.size = g1.nodes.size :=
    size_joinTo g1 bEnd (g.nodes.size + 2)
  obtain ⟨fL, fS, fN, fSL, fSN, fEL, fE⟩ := loopPreState_facts g stmt e he
  have hszpre : (loopPreState g stmt e).nodes.size = g.nodes.size + 3 :=
    size_loopPreState g stmt e
  have preLabel : ∀ i, i < g.nodes.size + 3 →
      (nodeAt g2 i).label = (nodeAt (loopPreState g stmt e) i).label := by
    intro i hi
    rw [hg2, lpost_label_lt _ _ _ _ (by omega : i < (joinTo g1 bEnd
      (g.nodes.size + 2)).nodes.size), joinTo_label]
    exact (stB.2.1 i (by omega)).2
  have preStat : ∀ i, i < g.nodes.size + 3 →
      (nodeAt g2 i).stat = (nodeAt (loopPreState g stmt e) i).stat := by
    intro i hi
    rw [hg2, lpost_stat_lt _ _ _ _ (by omega : i < (joinTo g1 bEnd
      (g.nodes.size + 2)).nodes.size), joinTo_stat]
    exact (stB.2.1 i (by omega)).1
  have preMem : ∀ i t, i < g.nodes.size + 3 →
      t ∈ (nodeAt (loopPreState g stmt e) i).next → t ∈ (nodeAt g2 i).next := by
    intro i t hi ht
    rw [hg2]
    exact lpost_next_mono _ _ _ _ _ (by omega)
      (joinTo_next_mono _ _ _ _ _ (stB.2.2.1 i t ht))
  refine ⟨he2, ?_, ?_, ?_, ?_, ?_, ?_, ?_, ?_⟩
  · rw [preStat _ (by omega), fS]
  · rw [preLabel _ (by omega), fL]
  · rw [preLabel _ (by omega), fSL]
  · rw [preLabel _ (by omega), fEL]
  · exact preMem e g.nodes.size (by omega) fE
  · refine preMem g.nodes.size (g.nodes.size + 1) (by omega) ?_
    rw [fN]
    exact List.mem_singleton.mpr rfl
  · intro g1' bEnd' hq
    rw [h1] at hq
    injection hq with hq
    obtain ⟨hg1', hbe⟩ := Prod.mk.inj hq
    have hbe' : bEnd = some bEnd' := hbe
    subst hg1'
    have hbchar := endB bEnd' hbe'
    rw [hszpre] at hbchar
    have hblt : bEnd' < g1.nodes.size := by
      rcases hbchar with h' | ⟨_, h'⟩
      · omega
      · exact h'
    have hneb : g.nodes.size ≠ bEnd' := by
      rcases hbchar with h' | ⟨h', _⟩ <;> omega
    have hjnext : (nodeAt (joinTo g1 bEnd (g.nodes.size + 2)) bEnd').next
        = listInsert (nodeAt g1 bEnd').next (g.nodes.size + 2) := by
      rw [hbe']
      exact joinTo_next_self g1 bEnd' (g.nodes.size + 2) hblt
    constructor
    · rw [hg2]
      refine lpost_next_mono _ _ _ _ _ (by omega) ?_
      rw [hjnext]
      exact mem_listInsert_self _ _
    · intro hcontra
      rw [hg2, lpost_next_ne _ _ _ _ (by omega) hneb, hjnext] at hcontra
      rcases mem_listInsert_inv hcontra with hmem | hmem
      · rcases stB.2.2.2 bEnd' g.nodes.size hmem with hmem' | hmem' | hmem'
        · rcases hbchar with hb | ⟨hb, _⟩
          · rw [hb, fSN] at hmem'
            cases hmem'
          · rw [nodeAt_of_le _ _ (by omega : (loopPreState g stmt e).nodes.size ≤ bEnd')]
              at hmem'
            cases hmem'
        · omega
        · rcases hmem' with hm | hm <;> injection hm with hm <;> omega
      · omega
  · refine ⟨(joinTo g1 bEnd (g.nodes.size + 2)).nodes.size, ?_, ?_, ?_, ?_, ?_⟩
    · rw [hg2, lpost_next_head _ _ _ (by omega)]
      exact mem_listInsert_self _ _
    · rw [hg2]
      exact lpost_else_label _ _ _
    · rw [hg2]
      exact lpost_else_stat _ _ _
    · rw [hg2]
      exact lpost_else_statements _ _ _
    · rw [hg2]
      exact lpost_else_next _ _ _ (by omega)

set_option maxRecDepth 10000 in
/-- C1 — amended.  For EVERY routine loop (`WHILE`, `REPEAT` or `FOR`, any
body, built from any arena state and any end node), `_get_program_graph`
shapes the loop as: a head node owning the loop statement (label `loop`),
a body-entry node (`loop_start`), and a loop-EXIT node (`loop_end`) which
becomes the end handed to the rest of the routine; the previous end links to
the head, the head links to the body entry; the reachable end of the loop
body gets a successor edge to the loop-EXIT node and has NO successor edge
back to the loop head; and the implicit condition-false branch leads from
the head through a fresh empty `_else` node whose only successor is the
loop-EXIT node. -/
theorem c1_loop_shape_amended (g : Graph) (stmt : Stmt) (body : List Stmt) (e : Nat)
    (exitD contD : Option Nat) (g2 : Graph) (e2 : Option Nat)
    (hloop : (∃ c, stmt = .whileS c body) ∨ (∃ c, stmt = .repeatS body c) ∨
      (∃ ctl f t, stmt = .forS ctl f t body))
    (he : e < g.nodes.size)
    (hbuild : buildStmt g stmt e exitD contD = .ok (g2, e2)) :
    e2 = some (g.nodes.size + 2) ∧
    (nodeAt g2 g.nodes.size).stat = some stmt ∧
    (nodeAt g2 g.nodes.size).label = some "loop" ∧
    (nodeAt g2 (g.nodes.size + 1)).label = some "loop_start" ∧
    (nodeAt g2 (g.nodes.size + 2)).label = some "loop_end" ∧
    g.nodes.size ∈ (nodeAt g2 e).next ∧
    (g.nodes.size + 1) ∈ (nodeAt g2 g.nodes.size).next ∧
    (∀ g1 bEnd, buildStmts (loopPreState g stmt e) body (g.nodes.size + 1)
        (some (g.nodes.size + 2)) (some (g.nodes.size + 1)) = .ok (g1, some bEnd) →
      (g.nodes.size + 2) ∈ (nodeAt g2 bEnd).next ∧
      g.nodes.size ∉ (nodeAt g2 bEnd).next) ∧
    (∃ elseN, elseN ∈ (nodeAt g2 g.nodes.size).next ∧
      (nodeAt g2 elseN).label = some "_else" ∧
      (nodeAt g2 elseN).stat = none ∧
      (nodeAt g2 elseN).statements = [] ∧
      (nodeAt g2 elseN).next = [g.nodes.size + 2]) := by
  rcases hloop with ⟨c, rfl⟩ | ⟨c, rfl⟩ | ⟨ctl, f, t, rfl⟩
  · rw [buildStmt_whileS_def] at hbuild
    exact c1_loopArm_shape g _ body e exitD contD g2 e2 he hbuild
  · rw [buildStmt_repeatS_def] at hbuild
    exact c1_loopArm_shape g _ body e exitD contD g2 e2 he hbuild
  · rw [buildStmt_forS_def] at hbuild
    exact c1_loopArm_shape g _ body e exitD contD g2 e2 he hbuild

set_option maxRecDepth 10000 in
/-- Witness for the amended loop-shape theorem: the single `WHILE` loop of
the counterexample routine, built from the fresh one-node arena, satisfies
every hypothesis and hence every conclusion (head = node 1, body entry =
node 2, loop exit = node 3). -/
theorem c1_loop_shape_amended_witness :
    ((∃ c, c1stmt = Stmt.whileS c [Stmt.assign ["x"] (Expr.lit 1)]) ∨
      (∃ c, c1stmt = Stmt.repeatS [Stmt.assign ["x"] (Expr.lit 1)] c) ∨
      (∃ ctl f t, c1stmt = Stmt.forS ctl f t [Stmt.assign ["x"] (Expr.lit 1)])) ∧
    (0 < c1g0.nodes.size) ∧
    (some 3 = some (c1g0.nodes.size + 2) ∧
    (nodeAt c1graph c1g0.nodes.size).stat = some c1stmt ∧
    (nodeAt c1graph c1g0.nodes.size).label = some "loop" ∧
    (nodeAt c1graph (c1g0.nodes.size + 1)).label = some "loop_start" ∧
    (nodeAt c1graph (c1g0.nodes.size + 2)).label = some "loop_end" ∧
    c1g0.nodes.size ∈ (nodeAt c1graph 0).next ∧
    (c1g0.nodes.size + 1) ∈ (nodeAt c1graph c1g0.nodes.size).next ∧
    (∀ g1 bEnd, buildStmts (loopPreState c1g0 c1stmt 0) [Stmt.assign ["x"] (Expr.lit 1)]
        (c1g0.nodes.size + 1) (some (c1g0.nodes.size + 2)) (some (c1g0.nodes.size + 1))
        = .ok (g1, some bEnd) →
      (c1g0.nodes.size + 2) ∈ (nodeAt c1graph bEnd).next ∧
      c1g0.nodes.size ∉ (nodeAt c1graph bEnd).next) ∧
    (∃ elseN, elseN ∈ (nodeAt c1graph c1g0.nodes.size).next ∧
      (nodeAt c1graph elseN).label = some "_else" ∧
      (nodeAt c1graph elseN).stat = none ∧
      (nodeAt c1graph elseN).statements = [] ∧
      (nodeAt c1graph elseN).next = [c1g0.nodes.size + 2])) :=
  ⟨Or.inl ⟨Expr.evar "cond", rfl⟩, by decide,
    c1_loop_shape_amended c1g0 c1stmt [Stmt.assign ["x"] (Expr.lit 1)] 0 none none
      c1graph (some 3) (Or.inl ⟨Expr.evar "cond", rfl⟩) (by decide) (by rfl)⟩

theorem unvisitedCount_cons_le (pool visited : List Nat) (n : Nat) :
    unvisitedCount pool (n :: visited) ≤ unvisitedCount pool visited := by
  apply Finset.card_le_card
  intro k hk
  simp only [Finset.mem_filter] at *
  exact ⟨hk.1, fun hc => hk.2 (List.mem_cons.mpr (Or.inr hc))⟩

theorem unvisitedCount_cons_lt (pool visited : List Nat) (n : Nat)
    (hmem : n ∈ pool) (hnv : n ∉ visited) :
    unvisitedCount pool (n :: visited) < unvisitedCount pool visited := by
  apply Finset.card_lt_card
  rw [Finset.ssubset_iff_of_subset]
  · refine ⟨n, ?_, ?_⟩
    · exact Finset.mem_filter.mpr ⟨List.mem_toFinset.mpr hmem, hnv⟩
    · intro hc
      exact (Finset.mem_filter.mp hc).2 (List.mem_cons.mpr (Or.inl rfl))
  · intro k hk
    simp only [Finset.mem_filter] at *
    exact ⟨hk.1, fun hc => hk.2 (List.mem_cons.mpr (Or.inr hc))⟩

theorem unvisitedCount_nil_le (pool : List Nat) : unvisitedCount pool [] ≤ pool.length :=
  Nat.le_trans (Finset.card_filter_le _ _) pool.toFinset_card_le

theorem unvisitedCount_pos (pool visited : List Nat) (n : Nat)
    (hmem : n ∈ pool) (hnv : n ∉ visited) : 0 < unvisitedCount pool visited :=
  Finset.card_pos.mpr ⟨n, Finset.mem_filter.mpr ⟨List.mem_toFinset.mpr hmem, hnv⟩⟩

theorem foldInsertNat_inv (pool visited2 : List Nat) (l : List Nat)
    (hl : ∀ x ∈ l, x ∈ pool) :
    ∀ td : List Nat, td.Nodup → (∀ k ∈ td, k ∈ pool) → (∀ k ∈ td, k ∉ visited2) →
      (l.foldl (fun td nx => if nx ∈ visited2 ∨ nx ∈ td then td else nx :: td) td).Nodup ∧
      (∀ k ∈ l.foldl (fun td nx => if nx ∈ visited2 ∨ nx ∈ td then td else nx :: td) td,
        k ∈ pool) ∧
      (∀ k ∈ l.foldl (fun td nx => if nx ∈ visited2 ∨ nx ∈ td then td else nx :: td) td,
        k ∉ visited2) := by
  induction l with
  | nil => intro td hnd hp hv; exact ⟨hnd, hp, hv⟩
  | cons x xs ih =>
    intro td hnd hp hv
    simp only [List.foldl_cons]
    by_cases hg : x ∈ visited2 ∨ x ∈ td
    · simp only [if_pos hg]
      exact ih (fun y hy => hl y (List.mem_cons.mpr (Or.inr hy))) td hnd hp hv
    · simp only [if_neg hg]
      push_neg at hg
      refine ih (fun y hy => hl y (List.mem_cons.mpr (Or.inr hy))) (x :: td) ?_ ?_ ?_
      · exact List.nodup_cons.mpr ⟨hg.2, hnd⟩
      · intro k hk
        rcases List.mem_cons.mp hk with h1 | h1
        · subst h1; exact hl k (List.mem_cons.mpr (Or.inl rfl))
        · exact hp k h1
      · intro k hk
        rcases List.mem_cons.mp hk with h1 | h1
        · subst h1; exact hg.1
        · exact hv k h1

theorem foldInsertPairs_inv (pool visited2 : List Nat) (path2 : List Nat)
    (l : List Nat) (hl : ∀ x ∈ l, x ∈ pool) :
    ∀ td : List (Nat × List Nat), (td.map Prod.fst).Nodup →
      (∀ k ∈ td.map Prod.fst, k ∈ pool) → (∀ k ∈ td.map Prod.fst, k ∉ visited2) →
      ((l.foldl (fun td nx => if nx ∈ visited2 ∨ nx ∈ td.map Prod.fst then td
          else (nx, path2) :: td) td).map Prod.fst).Nodup ∧
      (∀ k ∈ (l.foldl (fun td nx => if nx ∈ visited2 ∨ nx ∈ td.map Prod.fst then td
          else (nx, path2) :: td) td).map Prod.fst, k ∈ pool) ∧
      (∀ k ∈ (l.foldl (fun td nx => if nx ∈ visited2 ∨ nx ∈ td.map Prod.fst then td
          else (nx, path2) :: td) td).map Prod.fst, k ∉ visited2) := by
  induction l with
  | nil => intro td hnd hp hv; exact ⟨hnd, hp, hv⟩
  | cons x xs ih =>
    intro td hnd hp hv
    simp only [List.foldl_cons]
    by_cases hg : x ∈ visited2 ∨ x ∈ td.map Prod.fst
    · simp only [if_pos hg]
      exact ih (fun y hy => hl y (List.mem_cons.mpr (Or.inr hy))) td hnd hp hv
    · simp only [if_neg hg]
      push_neg at hg
      refine ih (fun y hy => hl y (List.mem_cons.mpr (Or.inr hy))) ((x, path2) :: td) ?_ ?_ ?_
      · simp only [List.map_cons]
        exact List.nodup_cons.mpr ⟨hg.2, hnd⟩
      · intro k hk
        simp only [List.map_cons] at hk
        rcases List.mem_cons.mp hk with h1 | h1
        · subst h1; exact hl k (List.mem_cons.mpr (Or.inl rfl))
        · exact hp k h1
      · intro k hk
        simp only [List.map_cons] at hk
        rcases List.mem_cons.mp hk with h1 | h1
        · subst h1; exact hg.1
        · exact hv k h1

theorem predLoop_ne_none (g : Graph) (pred : Stmt → Bool) (pool : List Nat)
    (hedges : ∀ nd ∈ g.nodes.toList, ∀ nx ∈ nd.next, nx ∈ pool) :
    ∀ fuel (todo : List (Nat × List Nat)) (visited : List Nat),
      (todo.map Prod.fst).Nodup →
      (∀ k ∈ todo.map Prod.fst, k ∈ pool) →
      (∀ k ∈ todo.map Prod.fst, k ∉ visited) →
      unvisitedCount pool visited ≤ fuel →
      predLoop g pred fuel todo visited ≠ none := by
  intro fuel
  induction fuel with
  | zero =>
    intro todo visited hnd hp hv hle
    match todo with
    | [] => simp [predLoop]
    | (n, path) :: rest =>
      exfalso
      have hnp : n ∈ pool := hp n (by simp)
      have hnv : n ∉ visited := hv n (by simp)
      have := unvisitedCount_pos pool visited n hnp hnv
      omega
  | succ fuel ih =>
    intro todo visited hnd hp hv hle
    match todo with
    | [] => simp [predLoop]
    | (n, path) :: rest =>
      have hnp : n ∈ pool := hp n (by simp)
      have hnv : n ∉ visited := hv n (by simp)
      have hfuel2 : unvisitedCount pool (n :: visited) ≤ fuel := by
        have := unvisitedCount_cons_lt pool visited n hnp hnv
        omega
      have hnd2 : (rest.map Prod.fst).Nodup := (List.nodup_cons.mp (by simpa using hnd)).2
      have hnn : n ∉ rest.map Prod.fst := (List.nodup_cons.mp (by simpa using hnd)).1
      have hp2 : ∀ k ∈ rest.map Prod.fst, k ∈ pool := fun k hk => hp k (by simp [hk])
      have hv2 : ∀ k ∈ rest.map Prod.fst, k ∉ n :: visited := by
        intro k hk
        intro hc
        rcases List.mem_cons.mp hc with h1 | h1
        · subst h1; exact hnn hk
        · exact hv k (by simp [hk]) h1
      simp only [predLoop]
      by_cases hsat : nodeSatisfied (g.nodes.getD n (mkNode none none)) pred
      · simp only [if_pos hsat]
        exact ih rest (n :: visited) hnd2 hp2 hv2 hfuel2
      · simp only [if_neg hsat]
        by_cases hne : (g.nodes.getD n (mkNode none none)).next.isEmpty
        · have hnil : (g.nodes.getD n (mkNode none none)).next = [] :=
            List.isEmpty_iff.mp hne
          rw [hnil]
          simp
        · simp only [if_neg hne]
          have hl : ∀ x ∈ (g.nodes.getD n (mkNode none none)).next, x ∈ pool := by
            intro x hx
            by_cases hlt : n < g.nodes.size
            · have hnd_mem : g.nodes.getD n (mkNode none none) ∈ g.nodes.toList := by
                rw [Array.getD, dif_pos hlt]
                exact Array.getElem_mem_toList g.nodes hlt
              exact hedges _ hnd_mem x hx
            · rw [Array.getD, dif_neg hlt] at hx
              cases hx
          have hinv := foldInsertPairs_inv pool (n :: visited) (path ++ [n])
            (g.nodes.getD n (mkNode none none)).next hl rest hnd2 hp2 hv2
          exact ih _ (n :: visited) hinv.1 hinv.2.1 hinv.2.2 hfuel2

theorem predToLoop_ne_none (g : Graph) (target : Stmt) (pred : Stmt → Bool)
    (pool : List Nat)
    (hedges : ∀ nd ∈ g.nodes.toList, ∀ pv ∈ nd.prev, pv ∈ pool) :
    ∀ fuel (todo : List (Nat × List Nat)) (visited : List Nat),
      (todo.map Prod.fst).Nodup →
      (∀ k ∈ todo.map Prod.fst, k ∈ pool) →
      (∀ k ∈ todo.map Prod.fst, k ∉ visited) →
      unvisitedCount pool visited ≤ fuel →
      predToLoop g target pred fuel todo visited ≠ none := by
  intro fuel
  induction fuel with
  | zero =>
    intro todo visited hnd hp hv hle
    match todo with
    | [] => simp [predToLoop]
    | (n, path) :: rest =>
      exfalso
      have hnp : n ∈ pool := hp n (by simp)
      have hnv : n ∉ visited := hv n (by simp)
      have := unvisitedCount_pos pool visited n hnp hnv
      omega
  | succ fuel ih =>
    intro todo visited hnd hp hv hle
    match todo with
    | [] => simp [predToLoop]
    | (n, path) :: rest =>
      have hnp : n ∈ pool := hp n (by simp)
      have hnv : n ∉ visited := hv n (by simp)
      have hfuel2 : unvisitedCount pool (n :: visited) ≤ fuel := by
        have := unvisitedCount_cons_lt pool visited n hnp hnv
        omega
      have hnd2 : (rest.map Prod.fst).Nodup := (List.nodup_cons.mp (by simpa using hnd)).2
      have hnn : n ∉ rest.map Prod.fst := (List.nodup_cons.mp (by simpa using hnd)).1
      have hp2 : ∀ k ∈ rest.map Prod.fst, k ∈ pool := fun k hk => hp k (by simp [hk])
      have hv2 : ∀ k ∈ rest.map Prod.fst, k ∉ n :: visited := by
        intro k hk
        intro hc
        rcases List.mem_cons.mp hc with h1 | h1
        · subst h1; exact hnn hk
        · exact hv k (by simp [hk]) h1
      simp only [predToLoop]
      by_cases hok : isNodeOk (g.nodes.getD n (mkNode none none)) target pred
      · simp only [if_pos hok]
        exact ih rest (n :: visited) hnd2 hp2 hv2 hfuel2
      · simp only [if_neg hok]
        by_cases hne : (g.nodes.getD n (mkNode none none)).prev.isEmpty
        · have hnil : (g.nodes.getD n (mkNode none none)).prev = [] :=
            List.isEmpty_iff.mp hne
          rw [hnil]
          simp
        · simp only [if_neg hne]
          have hl : ∀ x ∈ (g.nodes.getD n (mkNode none none)).prev, x ∈ pool := by
            intro x hx
            by_cases hlt : n < g.nodes.size
            · have hnd_mem : g.nodes.getD n (mkNode none none) ∈ g.nodes.toList := by
                rw [Array.getD, dif_pos hlt]
                exact Array.getElem_mem_toList g.nodes hlt
              exact hedges _ hnd_mem x hx
            · rw [Array.getD, dif_neg hlt] at hx
              cases hx
          have hinv := foldInsertPairs_inv pool (n :: visited) (n :: path)
            (g.nodes.getD n (mkNode none none)).prev hl rest hnd2 hp2 hv2
          exact ih _ (n :: visited) hinv.1 hinv.2.1 hinv.2.2 hfuel2

theorem findLoop_ne_none (g : Graph) (target : Stmt) (pool : List Nat)
    (hedges : ∀ nd ∈ g.nodes.toList, ∀ nx ∈ nd.next, nx ∈ pool) :
    ∀ fuel (todo : List Nat) (visited : List Nat),
      todo.Nodup →
      (∀ k ∈ todo, k ∈ pool) →
      (∀ k ∈ todo, k ∉ visited) →
      unvisitedCount pool visited ≤ fuel →
      findLoop g target fuel todo visited ≠ none := by
  intro fuel
  induction fuel with
  | zero =>
    intro todo visited hnd hp hv hle
    match todo with
    | [] => simp [findLoop]
    | n :: rest =>
      exfalso
      have hnp : n ∈ pool := hp n (by simp)
      have hnv : n ∉ visited := hv n (by simp)
      have := unvisitedCount_pos pool visited n hnp hnv
      omega
  | succ fuel ih =>
    intro todo visited hnd hp hv hle
    match todo with
    | [] => simp [findLoop]
    | n :: rest =>
      have hnp : n ∈ pool := hp n (by simp)
      have hnv : n ∉ visited := hv n (by simp)
      have hfuel2 : unvisitedCount pool (n :: visited) ≤ fuel := by
        have := unvisitedCount_cons_lt pool visited n hnp hnv
        omega
      have hnd2 : rest.Nodup := (List.nodup_cons.mp hnd).2
      have hnn : n ∉ rest := (List.nodup_cons.mp hnd).1
      have hp2 : ∀ k ∈ rest, k ∈ pool := fun k hk => hp k (by simp [hk])
      have hv2 : ∀ k ∈ rest, k ∉ n :: visited := by
        intro k hk
        intro hc
        rcases List.mem_cons.mp hc with h1 | h1
        · subst h1; exact hnn hk
        · exact hv k (by simp [hk]) h1
      simp only [findLoop]
      by_cases hc : nodeContains (g.nodes.getD n (mkNode none none)) target
      · rw [if_pos hc]
        simp
      · simp only [if_neg hc]
        have hl : ∀ x ∈ (g.nodes.getD n (mkNode none none)).next, x ∈ pool := by
          intro x hx
          by_cases hlt : n < g.nodes.size
          · have hnd_mem : g.nodes.getD n (mkNode none none) ∈ g.nodes.toList := by
              rw [Array.getD, dif_pos hlt]
              exact Array.getElem_mem_toList g.nodes hlt
            exact hedges _ hnd_mem x hx
          · rw [Array.getD, dif_neg hlt] at hx
            cases hx
        have hinv := foldInsertNat_inv pool (n :: visited)
          (g.nodes.getD n (mkNode none none)).next hl rest hnd2 hp2 hv2
        exact ih _ (n :: visited) hinv.1 hinv.2.1 hinv.2.2 hfuel2

theorem mem_pool_succ (g : Graph) (root : Nat) :
    ∀ nd ∈ g.nodes.toList, ∀ nx ∈ nd.next, nx ∈ root :: allSucc g := by
  intro nd hnd nx hnx
  exact List.mem_cons.mpr (Or.inr (List.mem_dedup.mpr (List.mem_flatMap.mpr ⟨nd, hnd, hnx⟩)))

theorem mem_pool_pred (g : Graph) (root : Nat) :
    ∀ nd ∈ g.nodes.toList, ∀ pv ∈ nd.prev, pv ∈ root :: allPred g := by
  intro nd hnd pv hpv
  exact List.mem_cons.mpr (Or.inr (List.mem_dedup.mpr (List.mem_flatMap.mpr ⟨nd, hnd, hpv⟩)))

theorem find_statement_node_ne_none (g : Graph) (target : Stmt) :
    find_statement_node g target ≠ none := by
  apply findLoop_ne_none g target (0 :: allSucc g) (mem_pool_succ g 0)
  · simp
  · intro k hk; simp at hk; simp [hk]
  · intro k hk; simp
  · exact unvisitedCount_nil_le _

/-- C9 — both path queries terminate on every successfully built flow graph,
cyclic or not: each worklist (the forward query's, the backward query's, and
the backward query's target search) pops only unvisited nodes, so the
standard fuel — the number of candidate node indices — is never exhausted and
the query returns a definite verdict (`.ok none` is the fuel-exhaustion
marker). -/
theorem c9_queries_terminate (stmts : List Stmt) (pred : Stmt → Bool) (target : Stmt)
    (g : Graph) (e : Option Nat)
    (hbuild : get_program_graph stmts = .ok (g, e)) :
    predicate_on_all_code_paths stmts pred ≠ .ok none ∧
    find_statement_node g target ≠ none ∧
    predicate_on_all_code_paths_to stmts target pred ≠ .ok none := by
  refine ⟨?_, find_statement_node_ne_none g target, ?_⟩
  · simp only [predicate_on_all_code_paths, hbuild, bind, Except.bind, pure, Except.pure]
    intro hc
    apply predLoop_ne_none g pred (0 :: allSucc g) (mem_pool_succ g 0)
      ((0 :: allSucc g).length) [(0, [])] []
      (by simp) (by intro k hk; simp at hk; simp [hk]) (by intro k hk; simp)
      (unvisitedCount_nil_le _)
    exact Except.ok.inj hc
  · simp only [predicate_on_all_code_paths_to, hbuild, bind, Except.bind, pure, Except.pure]
    cases hf : find_statement_node g target with
    | none => exact absurd hf (find_statement_node_ne_none g target)
    | some r =>
      cases r with
      | none => simp
      | some tn =>
        intro hc
        apply predToLoop_ne_none g target pred (tn :: allPred g) (mem_pool_pred g tn)
          ((tn :: allPred g).length) [(tn, [])] []
          (by simp) (by intro k hk; simp at hk; simp [hk]) (by intro k hk; simp)
          (unvisitedCount_nil_le _)
        exact Except.ok.inj hc

theorem mem_foldInsertNat (visited2 : List Nat) (l : List Nat) :
    ∀ (td : List Nat) (x : Nat),
      x ∈ l.foldl (fun td nx => if nx ∈ visited2 ∨ nx ∈ td then td else nx :: td) td →
      x ∈ td ∨ x ∈ l := by
  induction l with
  | nil => intro td x hx; exact Or.inl hx
  | cons y ys ih =>
    intro td x hx
    simp only [List.foldl_cons] at hx
    by_cases hg : y ∈ visited2 ∨ y ∈ td
    · rw [if_pos hg] at hx
      rcases ih td x hx with h1 | h1
      · exact Or.inl h1
      · exact Or.inr (List.mem_cons.mpr (Or.inr h1))
    · rw [if_neg hg] at hx
      rcases ih (y :: td) x hx with h1 | h1
      · rcases List.mem_cons.mp h1 with h2 | h2
        · exact Or.inr (List.mem_cons.mpr (Or.inl h2))
        · exact Or.inl h2
      · exact Or.inr (List.mem_cons.mpr (Or.inr h1))

theorem findLoop_sound (g : Graph) (target : Stmt) :
    ∀ (fuel : Nat) (todo visited : List Nat) (n : Nat),
      (∀ k ∈ todo, ReachableFrom g 0 k) →
      findLoop g target fuel todo visited = some (some n) →
      ReachableFrom g 0 n ∧
        nodeContains (g.nodes.getD n (mkNode none none)) target = true := by
  intro fuel
  induction fuel with
  | zero =>
    intro todo visited n hreach heq
    simp only [findLoop] at heq
    by_cases ht : todo.isEmpty <;> simp [ht] at heq
  | succ fuel ih =>
    intro todo visited n hreach heq
    match todo with
    | [] => simp [findLoop] at heq
    | m :: rest =>
      simp only [findLoop] at heq
      by_cases hc : nodeContains (g.nodes.getD m (mkNode none none)) target
      · rw [if_pos hc] at heq
        have hmn : m = n := by
          have := Option.some.inj (Option.some.inj heq)
          exact this
        subst hmn
        exact ⟨hreach m (List.mem_cons.mpr (Or.inl rfl)), hc⟩
      · rw [if_neg hc] at heq
        refine ih _ (m :: visited) n ?_ heq
        intro k hk
        rcases mem_foldInsertNat (m :: visited)
          (g.nodes.getD m (mkNode none none)).next rest k hk with h1 | h1
        · exact hreach k (List.mem_cons.mpr (Or.inr h1))
        · exact ReachableFrom.step (hreach m (List.mem_cons.mpr (Or.inl rfl))) h1

/-- C10 — if the target statement is not contained in any graph node
reachable from the routine's entry, the backward all-paths-to-target query
reports the property as holding vacuously (no failing path), and the derived
assigned-before-statement check answers true. -/
theorem c10_unreachable_target_vacuous (stmts : List Stmt) (target : Stmt)
    (pred : Stmt → Bool) (varname : String) (g : Graph) (e : Option Nat)
    (hbuild : get_program_graph stmts = .ok (g, e))
    (hunreach : ∀ n, ReachableFrom g 0 n →
      nodeContains (g.nodes.getD n (mkNode none none)) target = false) :
    predicate_on_all_code_paths_to stmts target pred = .ok (some none) ∧
    has_assignment_before target stmts varname = .ok true := by
  have hfind : find_statement_node g target = some none := by
    cases hf : find_statement_node g target with
    | none => exact absurd hf (find_statement_node_ne_none g target)
    | some r =>
      cases r with
      | none => rfl
      | some tn =>
        have hsound := findLoop_sound g target (0 :: allSucc g).length [0] [] tn
          (by intro k hk; simp at hk; subst hk; exact ReachableFrom.refl) hf
        have := hunreach tn hsound.1
        rw [hsound.2] at this
        exact absurd this (by simp)
  constructor
  · simp only [predicate_on_all_code_paths_to, hbuild, bind, Except.bind, hfind,
      pure, Except.pure]
  · simp only [has_assignment_before, predicate_on_all_code_paths_to, hbuild, bind,
      Except.bind, hfind, pure, Except.pure]
    rfl

/-- C10 — witness: a one-assignment routine and a RETURN target that occurs
nowhere in it. -/
theorem c10_unreachable_target_vacuous_witness :
    predicate_on_all_code_paths_to c10prog Stmt.returnS (fun _ => false)
      = .ok (some none) ∧
    has_assignment_before Stmt.returnS c10prog "q" = .ok true :=
  c10_unreachable_target_vacuous c10prog Stmt.returnS (fun _ => false) "q"
    c10graph (some 0) rfl
    (fun n h => by
      induction h with
      | refl => rfl
      | step hb hmem ih =>
        rename_i b c
        have hnil : (c10graph.nodes.getD b (mkNode none none)).next = [] := by
          match b with
          | 0 => rfl
          | b + 1 =>
            have hlt : ¬ (b + 1 < c10graph.nodes.size) := by
              simp [c10graph]
            rw [Array.getD, dif_neg hlt]
            rfl
        rw [hnil] at hmem
        cases hmem)

/-- C9 — witness at a one-assignment routine, an always-false predicate and
an absent target statement. -/
theorem c9_queries_terminate_witness :
    predicate_on_all_code_paths c10prog (fun _ => false) ≠ .ok none ∧
    find_statement_node c10graph Stmt.returnS ≠ none ∧
    predicate_on_all_code_paths_to c10prog Stmt.returnS (fun _ => false) ≠ .ok none :=
  c9_queries_terminate c10prog (fun _ => false) Stmt.returnS c10graph (some 0) rfl

end Catscan
